import Mathlib

/-!
Verification of the EXIF metadata extraction engine of the home-media-library
repository (`public/js/utils/` EXIF helper; the file defining
`extractExifMetadata`, `parseExifData`, `parseTiffData`, `parseIfd`,
`readTagValue`, `formatTagValue` and `processExifData`).

The JavaScript source is embedded shallowly:

* An `ArrayBuffer`/`DataView` is a `List Nat` of bytes (each byte of a real
  buffer is `< 256`; theorems that need this state it as a hypothesis).
* JavaScript numbers are modelled as exact rationals `ℚ` (the numeric
  operations the source performs on tag values — division, addition,
  negation — are exact at every input any theorem below touches);
  `NaN` has its own constructor in `JsVal`.
* A `DataView` read that is out of bounds throws a `RangeError`; every read
  is therefore an `Except Unit` value, and each JavaScript `try`/`catch`
  block of the source is an explicit `Except` handler placed where the
  source places it.  Functions that mutate their argument object and can
  throw return `Except σ σ` where the error value carries the object as
  mutated up to the throw point, mirroring in-place mutation.
-/

/-- A byte buffer as seen through a `DataView`. -/
abbrev DataView := List Nat

/-- `DataView.prototype.getUint8`: one byte, throws (`.error`) out of bounds. -/
def getUint8 (view : DataView) (off : Nat) : Except Unit Nat :=
  if h : off < view.length then .ok (view.get ⟨off, h⟩) else .error ()

/-- `DataView.prototype.getUint16 (offset, littleEndian)`. -/
def getUint16 (view : DataView) (off : Nat) (le : Bool) : Except Unit Nat := do
  let b0 ← getUint8 view off
  let b1 ← getUint8 view (off + 1)
  pure (if le then b0 + 256 * b1 else 256 * b0 + b1)

/-- `DataView.prototype.getUint32 (offset, littleEndian)`. -/
def getUint32 (view : DataView) (off : Nat) (le : Bool) : Except Unit Nat := do
  let b0 ← getUint8 view off
  let b1 ← getUint8 view (off + 1)
  let b2 ← getUint8 view (off + 2)
  let b3 ← getUint8 view (off + 3)
  pure (if le then b0 + 256 * b1 + 65536 * b2 + 16777216 * b3
        else 16777216 * b0 + 65536 * b1 + 256 * b2 + b3)

/-- `DataView.prototype.getInt32`: the unsigned 32-bit value reinterpreted
in two's complement. -/
def getInt32 (view : DataView) (off : Nat) (le : Bool) : Except Unit Int := do
  let u ← getUint32 view off le
  pure (if u < 2147483648 then (u : Int) else (u : Int) - 4294967296)

/-- A decoded JavaScript tag value: `undefined`, `NaN`, a number, a string,
or an array of numbers (the only array shape `readTagValue` produces). -/
inductive JsVal where
  | undef : JsVal
  | nan : JsVal
  | num (q : ℚ) : JsVal
  | str (s : String) : JsVal
  | arr (l : List ℚ) : JsVal
deriving DecidableEq, Repr

/-- JavaScript truthiness of a `JsVal` (`undefined`, `NaN`, `0`, `""` are
falsy; every array is truthy). -/
def jsTruthy : JsVal → Bool
  | .undef => false
  | .nan => false
  | .num q => q ≠ 0
  | .str s => s ≠ ""
  | .arr _ => true

/-- The whitespace set of JavaScript string trimming (`TrimString`):
space, tab, line feed, carriage return, vertical tab, form feed and
no-break space cover every code point `String.fromCharCode` can produce
from a byte. -/
def jsIsSpace (c : Char) : Bool :=
  c = ' ' ∨ c = '\t' ∨ c = '\n' ∨ c = '\r' ∨ c.toNat = 11 ∨ c.toNat = 12 ∨
    c.toNat = 0xA0

/-- `String.prototype.trim`, written with structural recursion so concrete
values evaluate. -/
def jsTrim (s : String) : String :=
  String.mk (((s.data.dropWhile jsIsSpace).reverse.dropWhile jsIsSpace).reverse)

/-- Is the first list an initial segment of the second? -/
def charsPrefix : List Char → List Char → Bool
  | [], _ => true
  | _ :: _, [] => false
  | a :: as, b :: bs => a = b && charsPrefix as bs

/-- `String.prototype.startsWith`, written with structural recursion so
concrete values evaluate. -/
def jsStartsWith (s p : String) : Bool := charsPrefix p.data s.data

/-- The ASCII reading loop shared by `getStringFromView` and the ASCII case
of `readTagValue`: reads up to `len` bytes starting at `offset`, stopping at
a NUL byte, converting each byte with `String.fromCharCode`.  An
out-of-bounds byte read before the loop stops throws. -/
def readCharsFromView (view : DataView) (offset : Nat) : Nat → Except Unit String
  | 0 => .ok ""
  | len + 1 => do
    let c ← getUint8 view offset
    if c = 0 then pure ""
    else do
      let rest ← readCharsFromView view (offset + 1) len
      pure (String.mk [Char.ofNat c] ++ rest)

/-- Reads `count` scalar values of width `valueBytes` with `getValue`,
collecting them in order (the array-building loops of `readTagValue`). -/
def readNumArray (view : DataView) (getValue : Nat → Except Unit ℚ)
    (base valueBytes : Nat) : Nat → Nat → Except Unit (List ℚ)
  | _, 0 => .ok []
  | i, n + 1 => do
    let v ← getValue (base + i * valueBytes)
    let rest ← readNumArray view getValue base valueBytes (i + 1) n
    pure (v :: rest)

/-- `readTagValue (view, dataType, numValues, valueOffset, tiffStart,
entryValueOffset, littleEndian)`: width and reader per EXIF data type;
values of total size `≤ 4` bytes are read inline at `entryValueOffset`,
larger ones at `tiffStart + valueOffset`; ASCII reads until NUL or count
exhaustion then trims; rationals divide, yielding `0` on a zero
denominator; unsupported type codes yield `undefined`. -/
def readTagValue (view : DataView) (dataType numValues valueOffset tiffStart
    entryValueOffset : Nat) (le : Bool) : Except Unit JsVal :=
  let info : Option (Nat × (Nat → Except Unit ℚ)) :=
    match dataType with
    | 1 => some (1, fun off => do pure (((← getUint8 view off) : ℚ)))
    | 2 => some (1, fun off => do pure (((← getUint8 view off) : ℚ)))
    | 3 => some (2, fun off => do pure (((← getUint16 view off le) : ℚ)))
    | 4 => some (4, fun off => do pure (((← getUint32 view off le) : ℚ)))
    | 5 => some (8, fun off => do
        let n ← getUint32 view off le
        let d ← getUint32 view (off + 4) le
        pure (if d = 0 then 0 else (n : ℚ) / (d : ℚ)))
    | 7 => some (1, fun off => do pure (((← getUint8 view off) : ℚ)))
    | 9 => some (4, fun off => do pure (((← getInt32 view off le) : ℚ)))
    | 10 => some (8, fun off => do
        let n ← getInt32 view off le
        let d ← getInt32 view (off + 4) le
        pure (if d = 0 then 0 else (n : ℚ) / (d : ℚ)))
    | _ => none
  match info with
  | none => .ok .undef
  | some (valueBytes, getValue) =>
    -- the inline and out-of-line branches of the source differ only in the
    -- base offset they read from
    let readAt (base : Nat) : Except Unit JsVal :=
      if dataType = 2 then do
        let s ← readCharsFromView view base numValues
        pure (.str (jsTrim s))
      else if numValues = 1 then do
        pure (.num (← getValue base))
      else do
        pure (.arr (← readNumArray view getValue base valueBytes 0 numValues))
    if numValues * valueBytes ≤ 4 then readAt entryValueOffset
    else readAt (tiffStart + valueOffset)

/-- One parsed IFD entry (`{ id, type, count, value }`). -/
structure IfdEntry where
  id : Nat
  type : Nat
  count : Nat
  value : JsVal
deriving DecidableEq, Repr

/-- The `entries` object of `parseIfd`: tagId-keyed, later assignment to the
same tag overwrites. -/
abbrev IfdMap := List IfdEntry

/-- `entries[tagId] = e` (overwrite semantics of a JS object key). -/
def ifdInsert (m : IfdMap) (e : IfdEntry) : IfdMap :=
  m.filter (fun x => x.id ≠ e.id) ++ [e]

/-- `entries[tagId]` lookup. -/
def ifdFind (m : IfdMap) (k : Nat) : Option IfdEntry :=
  m.find? (fun e => e.id == k)

/-- The entry loop of `parseIfd`: entry `i` lives at `ifdOffset + 2 + 12*i`;
its four header fields are read outside any `try`, so a failing header read
throws out of `parseIfd`; a failing `readTagValue` is caught per entry and
the tag skipped. -/
def parseIfdEntries (view : DataView) (ifdOffset tiffStart : Nat) (le : Bool) :
    Nat → IfdMap → Nat → Except Unit IfdMap
  | _, acc, 0 => .ok acc
  | i, acc, n + 1 => do
    let entryOffset := ifdOffset + 2 + i * 12
    let tagId ← getUint16 view entryOffset le
    let dataType ← getUint16 view (entryOffset + 2) le
    let numValues ← getUint32 view (entryOffset + 4) le
    let valueOffset ← getUint32 view (entryOffset + 8) le
    let acc :=
      match readTagValue view dataType numValues valueOffset tiffStart
          (entryOffset + 8) le with
      | .ok v => ifdInsert acc ⟨tagId, dataType, numValues, v⟩
      | .error _ => acc
    parseIfdEntries view ifdOffset tiffStart le (i + 1) acc n

/-- `parseIfd (view, ifdOffset, tiffStart, littleEndian)`. -/
def parseIfd (view : DataView) (ifdOffset tiffStart : Nat) (le : Bool) :
    Except Unit IfdMap := do
  let entryCount ← getUint16 view ifdOffset le
  parseIfdEntries view ifdOffset tiffStart le 0 [] entryCount

/-- `getStringFromView (view, offset, length)` of the source: same reading
loop, without the trim applied by the ASCII tag reader. -/
def getStringFromView (view : DataView) (offset length : Nat) : Except Unit String :=
  readCharsFromView view offset length

/-- The `exifData` accumulator object.  `_segments` keeps `(marker, offset,
size)` (the source stores the marker as an uppercase hex string, recorded
here numerically); `_byteOrder` keeps the chosen `littleEndian` flag (the
source stores the strings "little-endian"/"big-endian"); `_parseError` and
`processingError` record only the presence of the caught error message. -/
structure ExifData where
  segments : List (Nat × Nat × Nat) := []
  exifFound : Bool := false
  exifOffset : Option Nat := none
  byteOrder : Option Bool := none
  parseError : Bool := false
  ifd0 : Option IfdMap := none
  exif : Option IfdMap := none
  gps : Option IfdMap := none
deriving DecidableEq, Repr

/-- The sub-IFD pointer value `exifData.ifd0[0x8769].value` is added to
`tiffStart` and used as an offset; that is only meaningful for a
non-negative integral number.  Any other value makes the source compute a
garbage index through JavaScript coercion (string concatenation for
arrays); that unreachable-for-well-formed-data case is modelled as a
throw. -/
def jsValAsNatOffset : JsVal → Option Nat
  | .num q => if q.den = 1 ∧ 0 ≤ q.num then some q.num.toNat else none
  | _ => none

/-- `parseTiffData (view, tiffStart, exifData)`: byte-order marker (`"II"` =
`0x4949` selects little-endian, anything else big-endian), the 42 check, the
IFD0 offset, IFD0, and the Exif / GPS sub-IFDs pointed to by tags `0x8769` /
`0x8825`.  The error value carries `exifData` as mutated before the throw. -/
def parseTiffData (view : DataView) (tiffStart : Nat) (ed : ExifData) :
    Except ExifData ExifData := do
  let byteOrder ←
    match getUint16 view tiffStart false with
    | .ok w => pure w
    | .error _ => throw ed
  let littleEndian := byteOrder = 0x4949
  let ed := { ed with byteOrder := some littleEndian }
  let tiffCheck ←
    match getUint16 view (tiffStart + 2) littleEndian with
    | .ok c => pure c
    | .error _ => throw ed
  if tiffCheck ≠ 42 then return ed
  let ifdOffset ←
    match getUint32 view (tiffStart + 4) littleEndian with
    | .ok o => pure o
    | .error _ => throw ed
  let ed := { ed with ifd0 := some [] }
  let ifd0Entries ←
    match parseIfd view (tiffStart + ifdOffset) tiffStart littleEndian with
    | .ok m => pure m
    | .error _ => throw ed
  let ed := { ed with ifd0 := some ifd0Entries }
  let ed ←
    match ifdFind ifd0Entries 0x8769 with
    | none => pure ed
    | some e =>
      match jsValAsNatOffset e.value with
      | none => throw ed
      | some exifIfdOffset =>
        match parseIfd view (tiffStart + exifIfdOffset) tiffStart littleEndian with
        | .ok m => pure { ed with exif := some m }
        | .error _ => throw ed
  let ed ←
    match ifdFind ifd0Entries 0x8825 with
    | none => pure ed
    | some e =>
      match jsValAsNatOffset e.value with
      | none => throw ed
      | some gpsIfdOffset =>
        match parseIfd view (tiffStart + gpsIfdOffset) tiffStart littleEndian with
        | .ok m => pure { ed with gps := some m }
        | .error _ => throw ed
  return ed

/-- The segment-scanning `while` loop of `parseExifData`, with the byte
offset as loop variable.  The source's loop body increases `offset` by at
least 1 on every iteration and only continues while `offset <
view.byteLength - 1`, so `view.length` iterations always suffice; `fuel` is
initialised to `view.length` and never runs out.  A throw anywhere in the
body escapes to the `catch` of `parseExifData`; the error value carries the
accumulator as mutated so far. -/
def scanSegments (view : DataView) : Nat → ExifData → Nat → Except ExifData ExifData
  | _, ed, 0 => .ok ed
  | offset, ed, fuel + 1 =>
    if offset + 1 < view.length then
      match getUint8 view offset with
      | .error _ => .error ed
      | .ok b =>
        if b ≠ 0xFF then scanSegments view (offset + 1) ed fuel
        else
          match getUint8 view (offset + 1) with
          | .error _ => .error ed
          | .ok marker =>
            if marker = 0xD9 then .ok ed
            else if marker = 0xD0 ∨ marker = 0xD1 ∨ marker = 0xD2 ∨
                marker = 0xD3 ∨ marker = 0xD4 ∨ marker = 0xD5 ∨
                marker = 0xD6 ∨ marker = 0xD7 ∨ marker = 0xD8 ∨ marker = 0xD9 then
              scanSegments view (offset + 2) ed fuel
            else
              match getUint16 view (offset + 2) false with
              | .error _ => .error ed
              | .ok segmentSize =>
                if segmentSize < 2 then scanSegments view (offset + 2) ed fuel
                else do
                  let ed ←
                    if marker = 0xE1 then
                      match getStringFromView view (offset + 4) 6 with
                      | .error _ => throw ed
                      | .ok exifHeader =>
                        if exifHeader = "Exif\x00\x00" then
                          let ed := { ed with exifFound := true,
                                              exifOffset := some (offset + 10) }
                          parseTiffData view (offset + 10) ed
                        else pure ed
                    else pure ed
                  let ed := { ed with
                    segments := ed.segments ++ [(marker, offset, segmentSize)] }
                  scanSegments view (offset + 2 + segmentSize) ed fuel
    else .ok ed

/-- `parseExifData (arrayBuffer)`: SOI check (short-circuiting, outside the
`try`, so an out-of-bounds read of byte 0 or 1 escapes to the caller), then
the segment scan inside `try`/`catch`; a caught error sets `_parseError`
and the partially filled accumulator is still returned. -/
def parseExifData (view : DataView) : Except Unit ExifData := do
  let ed : ExifData := {}
  let b0 ← getUint8 view 0
  if b0 ≠ 0xFF then return ed
  let b1 ← getUint8 view 1
  if b1 ≠ 0xD8 then return ed
  match scanSegments view 2 ed view.length with
  | .ok ed1 => return ed1
  | .error ed1 => return { ed1 with parseError := true }

/-- Days from the Unix epoch for a proleptic-Gregorian civil date with
`1 ≤ m ≤ 12` (floor-division form of the standard civil-calendar
conversion; `/` on `Int` is Euclidean division, which is floor division
for the positive literal divisors used here). -/
def daysFromCivil (y m d : Int) : Int :=
  let yy := if m ≤ 2 then y - 1 else y
  let era := yy / 400
  let yoe := yy - era * 400
  let mp := if m > 2 then m - 3 else m + 9
  let doy := (153 * mp + 2) / 5 + d - 1
  let doe := yoe * 365 + yoe / 4 - yoe / 100 + doy
  era * 146097 + doe - 719468

/-- Civil date from days since the Unix epoch (inverse of `daysFromCivil`). -/
def civilFromDays (z0 : Int) : Int × Int × Int :=
  let z := z0 + 719468
  let era := z / 146097
  let doe := z - era * 146097
  let yoe := (doe - doe / 1460 + doe / 36524 - doe / 146096) / 365
  let y := yoe + era * 400
  let doy := doe - (365 * yoe + yoe / 4 - yoe / 100)
  let mp := (5 * doy + 2) / 153
  let d := doy - (153 * mp + 2) / 5 + 1
  let m := if mp < 10 then mp + 3 else mp - 9
  (if m ≤ 2 then y + 1 else y, m, d)

/-- The ECMAScript two-digit-year rule of the `Date` constructor and
`Date.UTC`: a year value in `0..99` means `1900 + year`. -/
def jsTwoDigitYear (y : Int) : Int := if 0 ≤ y ∧ y ≤ 99 then 1900 + y else y

/-- ECMAScript `MakeDay`: month overflow rolls into the year, day overflow
into the day count. -/
def jsMakeDay (year monthIdx day : Int) : Int :=
  let ym := year + monthIdx / 12
  let mn := monthIdx % 12
  daysFromCivil ym (mn + 1) 1 + (day - 1)

/-- Milliseconds since the epoch for
`Date.UTC(y, monIdx, d, h, mi, s)` (before range clipping). -/
def jsDateUTCms (y monIdx d h mi s : Int) : Int :=
  jsMakeDay (jsTwoDigitYear y) monIdx d * 86400000 +
    h * 3600000 + mi * 60000 + s * 1000

/-- The largest time value a JavaScript `Date` can hold (8.64e15 ms). -/
def jsMaxTime : Nat := 8640000000000000

/-- Zero-padded decimal rendering. -/
def padNum (w n : Nat) : String :=
  let s := toString n
  String.mk (List.replicate (w - s.length) '0') ++ s

/-- `Date.prototype.toISOString` on a time value: throws (`RangeError`) on
an invalid date, i.e. a time value beyond `±8.64e15` ms. -/
def jsToISOString (ms : Int) : Except Unit String :=
  if ms.natAbs > jsMaxTime then .error ()
  else
    let days := ms / 86400000
    let rem := (ms % 86400000).toNat
    let c := civilFromDays days
    let yearStr :=
      if 0 ≤ c.1 ∧ c.1 ≤ 9999 then padNum 4 c.1.toNat
      else if c.1 < 0 then "-" ++ padNum 6 (-c.1).toNat
      else "+" ++ padNum 6 c.1.toNat
    .ok (yearStr ++ "-" ++ padNum 2 c.2.1.toNat ++ "-" ++ padNum 2 c.2.2.toNat ++
      "T" ++ padNum 2 (rem / 3600000) ++ ":" ++ padNum 2 (rem % 3600000 / 60000) ++
      ":" ++ padNum 2 (rem % 60000 / 1000) ++ "." ++ padNum 3 (rem % 1000) ++ "Z")

/-- Digit list to number (most significant first). -/
def digitsToNat (l : List Char) : Nat :=
  l.foldl (fun a c => a * 10 + (c.toNat - 48)) 0

/-- The date-pattern test and split of `formatTagValue`: the regex
`^\d{4}:\d{2}:\d{2} \d{2}:\d{2}:\d{2}$` followed by the two `split` calls,
yielding `(year, month, day, hour, minute, second)`. -/
def parseExifDate (s : String) : Option (Nat × Nat × Nat × Nat × Nat × Nat) :=
  match s.data with
  | [y1, y2, y3, y4, c1, a1, a2, c2, b1, b2, sp, h1, h2, c3, m1, m2, c4, s1, s2] =>
    if ([y1, y2, y3, y4, a1, a2, b1, b2, h1, h2, m1, m2, s1, s2].all Char.isDigit) ∧
        c1 = ':' ∧ c2 = ':' ∧ sp = ' ' ∧ c3 = ':' ∧ c4 = ':' then
      some (digitsToNat [y1, y2, y3, y4], digitsToNat [a1, a2], digitsToNat [b1, b2],
        digitsToNat [h1, h2], digitsToNat [m1, m2], digitsToNat [s1, s2])
    else none
  | _ => none

/-- `formatTagValue (value, tagId, ifd)`: date tags matching
`YYYY:MM:DD HH:MM:SS` are rebuilt through `new Date(y, m-1, d, h, mi, s)`
and `toISOString`; everything else passes through.  The source constructs
the `Date` in the host's local timezone; the host clock is modelled as UTC.
The `ifd` argument of the source is unused and omitted. -/
def formatTagValue (value : JsVal) (tagId : Nat) : Except Unit JsVal :=
  match value with
  | .undef => .ok .undef
  | v =>
    if tagId = 0x0132 ∨ tagId = 0x9003 ∨ tagId = 0x9004 then
      match v with
      | .str s =>
        match parseExifDate s with
        | some c =>
          match jsToISOString (jsDateUTCms (c.1 : Int) ((c.2.1 : Int) - 1)
              (c.2.2.1 : Int) (c.2.2.2.1 : Int) (c.2.2.2.2.1 : Int)
              (c.2.2.2.2.2 : Int)) with
          | .ok iso => .ok (.str iso)
          | .error e => .error e
        | none => .ok v
      | _ => .ok v
    else .ok v

/-- The structured metadata object `processExifData` builds and
`extractExifMetadata` returns.  A field is `none` exactly when the
JavaScript object does not have the property (never assigned); `hasExif`
defaults to `false` for the return paths of `extractExifMetadata` that
build an object without it. -/
structure Metadata where
  hasExif : Bool := false
  make : Option JsVal := none
  model : Option JsVal := none
  dateModified : Option JsVal := none
  imageDescription : Option JsVal := none
  copyright : Option JsVal := none
  exposureTime : Option JsVal := none
  fNumber : Option JsVal := none
  isoSpeedRatings : Option JsVal := none
  dateTimeOriginal : Option JsVal := none
  dateTimeDigitized : Option JsVal := none
  exposureBiasValue : Option JsVal := none
  meteringMode : Option JsVal := none
  flash : Option JsVal := none
  focalLength : Option JsVal := none
  dateCreated : Option JsVal := none
  hasGpsData : Option Bool := none
  gpsLatitude : Option ℚ := none
  gpsLongitude : Option ℚ := none
  gpsAltitude : Option JsVal := none
  gpsTimestamp : Option JsVal := none
  gpsDateTime : Option String := none
  processingError : Bool := false
  originalTimestamp : Option Int := none
  extractionError : Bool := false
deriving DecidableEq, Repr

/-- Truthiness of a possibly-absent JavaScript value. -/
def optTruthy (v : Option JsVal) : Bool := v.elim false jsTruthy

/-- JavaScript `a || b` over possibly-absent values. -/
def jsOr (a b : Option JsVal) : Option JsVal := if optTruthy a then a else b

/-- One `if (ifd[tag]) metadata.x = formatTagValue(ifd[tag].value, tag, ifd)`
line of `processExifData`; a throw inside `formatTagValue` carries the
metadata as built so far to the enclosing `catch`. -/
def tagStep (ifd : IfdMap) (tag : Nat) (set : Metadata → JsVal → Metadata)
    (m : Metadata) : Except Metadata Metadata :=
  match ifdFind ifd tag with
  | none => .ok m
  | some e =>
    match formatTagValue e.value tag with
    | .ok v => .ok (set m v)
    | .error _ => .error m

/-- JavaScript unary minus on a tag value (the GPS altitude negation).  A
non-numeric operand goes through `ToNumber`; the string/array coercions
that could still produce a number there are not exercised by any claim and
are modelled as `NaN`. -/
def jsNeg : JsVal → JsVal
  | .num q => .num (-q)
  | _ => .nan

/-- ECMAScript `ToInteger` of a finite number: truncation toward zero. -/
def ratTrunc (q : ℚ) : Int := if q < 0 then -(Int.floor (-q)) else Int.floor q

/-- Decimal-digit core of `Number(string)`: digits with an optional
fractional part. -/
def parseDecCore (l : List Char) : Option ℚ :=
  let ip := l.takeWhile Char.isDigit
  let rest := l.dropWhile Char.isDigit
  match rest with
  | [] => if ip.isEmpty then none else some ((digitsToNat ip : ℚ))
  | c :: fr =>
    if c = '.' ∧ fr.all Char.isDigit ∧ (ip ≠ [] ∨ fr ≠ []) then
      some ((digitsToNat ip : ℚ) + (digitsToNat fr : ℚ) / ((10 : ℚ) ^ fr.length))
    else none

/-- `Number(string)` as used on the pieces of a GPS datestamp: trimmed;
empty means `0`; an optional sign followed by decimal digits (with an
optional fraction) parses; other forms (hex, exponents, `Infinity`) are
unreachable for the `YYYY:MM:DD` inputs involved and yield `NaN`
(`none`). -/
def jsNumber (s : String) : Option ℚ :=
  let t := jsTrim s
  if t = "" then some 0
  else
    match t.data with
    | '-' :: rest => (parseDecCore rest).map Neg.neg
    | '+' :: rest => parseDecCore rest
    | l => parseDecCore l

/-- The degrees/minutes/seconds → signed decimal conversion of
`processExifData`, applied to one coordinate: an array of length `≥ 2`
contributes `deg + min/60` plus `sec/3600` when a third element exists,
negated when the reference equals `negRef` (`"S"` or `"W"`); a plain
number gets only the sign rule; anything else leaves the initial `0`. -/
def gpsDecimal (value ref : JsVal) (negRef : String) : ℚ :=
  match value with
  | .arr l =>
    if l.length ≥ 2 then
      let v := l.getD 0 0 + l.getD 1 0 / 60 +
        (if l.length ≥ 3 then l.getD 2 0 / 3600 else 0)
      if ref = .str negRef then -v else v
    else 0
  | .num q => if ref = .str negRef then -q else q
  | _ => 0

/-- The GPS timestamp block of `processExifData` (tags `0x0007` and
`0x001D`): on a 3-element time array and truthy datestamp, the datestamp is
split on `:` and fed through `Number` and `Date.UTC`; `gpsTimestamp`
receives `getTime()` (a number, or `NaN` for an invalid date) and
`toISOString` — which throws on an invalid date — fills `gpsDateTime`.
Calling `split` on a truthy non-string datestamp throws. -/
def gpsTimeStep (gps : IfdMap) (m : Metadata) : Except Metadata Metadata :=
  match ifdFind gps 0x0007, ifdFind gps 0x001D with
  | some e7, some e1d =>
    let timeValue := e7.value
    let dateStamp := e1d.value
    match timeValue with
    | .arr tl =>
      if tl.length = 3 ∧ jsTruthy dateStamp = true then
        match dateStamp with
        | .str ds =>
          let parts := (ds.split (fun c => c = ':')).map jsNumber
          let msOpt : Option Int :=
            match (parts.get? 0).join, (parts.get? 1).join, (parts.get? 2).join with
            | some y, some mo, some d =>
              let ms := jsDateUTCms (ratTrunc y) (ratTrunc (mo - 1)) (ratTrunc d)
                (ratTrunc (tl.getD 0 0)) (ratTrunc (tl.getD 1 0))
                (ratTrunc (tl.getD 2 0))
              if ms.natAbs > jsMaxTime then none else some ms
            | _, _, _ => none
          let tv : JsVal := match msOpt with | some v => .num (v : ℚ) | none => .nan
          let m := { m with gpsTimestamp := some tv }
          match msOpt with
          | some msv =>
            match jsToISOString msv with
            | .ok iso => .ok { m with gpsDateTime := some iso }
            | .error _ => .error m
          | none => .error m
        | _ => .error m
      else .ok m
    | _ => .ok m
  | _, _ => .ok m

/-- The GPS block of `processExifData`: `hasGpsData` is set whenever the
GPS map is non-empty; coordinates, altitude and timestamp are all gated on
the presence of the four tags `0x0001`–`0x0004`. -/
def gpsStep (gps : IfdMap) (m : Metadata) : Except Metadata Metadata :=
  if gps ≠ [] then
    let m := { m with hasGpsData := some true }
    match ifdFind gps 0x0001, ifdFind gps 0x0002,
        ifdFind gps 0x0003, ifdFind gps 0x0004 with
    | some e1, some e2, some e3, some e4 =>
      let latitude := gpsDecimal e2.value e1.value "S"
      let longitude := gpsDecimal e4.value e3.value "W"
      let m := { m with gpsLatitude := some latitude,
                        gpsLongitude := some longitude }
      let m :=
        match ifdFind gps 0x0006 with
        | some e6 =>
          let altRef := match ifdFind gps 0x0005 with
            | some e5 => e5.value
            | none => .num 0
          let altitude := if altRef = .num 1 then jsNeg e6.value else e6.value
          { m with gpsAltitude := some altitude }
        | none => m
      gpsTimeStep gps m
    | _, _, _, _ => .ok m
  else .ok m

/-- The fourteen `if (ifd[tag]) metadata.x = formatTagValue(...)` lines of
`processExifData` (basic image info from IFD0, camera settings from the
Exif sub-IFD), in source order. -/
def tagSteps (ifd0 exif : IfdMap) (m0 : Metadata) : Except Metadata Metadata := do
  let m ← tagStep ifd0 0x010F (fun m v => { m with make := some v }) m0
  let m ← tagStep ifd0 0x0110 (fun m v => { m with model := some v }) m
  let m ← tagStep ifd0 0x0132 (fun m v => { m with dateModified := some v }) m
  let m ← tagStep ifd0 0x010E (fun m v => { m with imageDescription := some v }) m
  let m ← tagStep ifd0 0x8298 (fun m v => { m with copyright := some v }) m
  let m ← tagStep exif 0x829A (fun m v => { m with exposureTime := some v }) m
  let m ← tagStep exif 0x829D (fun m v => { m with fNumber := some v }) m
  let m ← tagStep exif 0x8827 (fun m v => { m with isoSpeedRatings := some v }) m
  let m ← tagStep exif 0x9003 (fun m v => { m with dateTimeOriginal := some v }) m
  let m ← tagStep exif 0x9004 (fun m v => { m with dateTimeDigitized := some v }) m
  let m ← tagStep exif 0x9204 (fun m v => { m with exposureBiasValue := some v }) m
  let m ← tagStep exif 0x9207 (fun m v => { m with meteringMode := some v }) m
  let m ← tagStep exif 0x9209 (fun m v => { m with flash := some v }) m
  tagStep exif 0x920A (fun m v => { m with focalLength := some v }) m

/-- `processExifData (exifData)`: `hasExif` from `_exifFound`; the named
fields from IFD0 and the Exif sub-IFD through `formatTagValue`;
`dateCreated = dateTimeOriginal || dateTimeDigitized || dateModified`; the
GPS block; a throw anywhere inside the `try` keeps the fields already
assigned and sets `processingError`. -/
def processExifData (exifData : ExifData) : Metadata :=
  let metadata : Metadata := { hasExif := exifData.exifFound }
  if exifData.exifFound = false then metadata
  else
    let ifd0 := exifData.ifd0.getD []
    let exif := exifData.exif.getD []
    let gps := exifData.gps.getD []
    let body : Except Metadata Metadata := do
      let m ← tagSteps ifd0 exif metadata
      let m := { m with dateCreated := jsOr m.dateTimeOriginal (jsOr m.dateTimeDigitized m.dateModified) }
      gpsStep gps m
    match body with
    | .ok m => m
    | .error m => { m with processingError := true }

/-- The caller-visible pieces of a browser `File`: MIME type, modification
time (milliseconds since the epoch), and contents.  `extractExifMetadata`
is only ever called with an existing file, so the `!file` guard of the
source is vacuous here. -/
structure JsFile where
  type : String
  lastModified : Int
  bytes : DataView

/-- `extractExifMetadata (file)`: non-images short-circuit to a
timestamp-only object; otherwise parse and process inside `try`, add
`originalTimestamp`, fill a falsy `dateCreated` from a truthy
`file.lastModified`; the `catch` returns the minimal object with
`extractionError` set.  Reading the buffer (`readFileAsArrayBuffer`) is
host I/O and modelled as always succeeding with `file.bytes`.  The only
escaping throw is `toISOString` on an unrepresentable timestamp. -/
def extractExifMetadata (file : JsFile) : Except Unit Metadata :=
  if ¬ (jsStartsWith file.type "image/" = true) then do
    let iso ← jsToISOString file.lastModified
    pure { originalTimestamp := some file.lastModified,
           dateCreated := some (.str iso) }
  else
    let tryBody : Except Unit Metadata := do
      let exifData ← parseExifData file.bytes
      let metadata := processExifData exifData
      let metadata := { metadata with originalTimestamp := some file.lastModified }
      if optTruthy metadata.dateCreated = false ∧ file.lastModified ≠ 0 then do
        let iso ← jsToISOString file.lastModified
        pure { metadata with dateCreated := some (.str iso) }
      else pure metadata
    match tryBody with
    | .ok metadata => .ok metadata
    | .error _ => do
      let iso ← jsToISOString file.lastModified
      pure { extractionError := true,
             originalTimestamp := some file.lastModified,
             dateCreated := some (.str iso) }

/-! ## Byte-serialisation helpers and read lemmas -/

/-- Two-byte serialisation of `n < 2^16` in the given byte order. -/
def encode16 (le : Bool) (n : Nat) : List Nat :=
  if le then [n % 256, n / 256 % 256] else [n / 256 % 256, n % 256]

/-- Four-byte serialisation of `n < 2^32` in the given byte order. -/
def encode32 (le : Bool) (n : Nat) : List Nat :=
  if le then [n % 256, n / 256 % 256, n / 65536 % 256, n / 16777216 % 256]
  else [n / 16777216 % 256, n / 65536 % 256, n / 256 % 256, n % 256]

/-- Four-byte two's-complement serialisation of a signed 32-bit value. -/
def encodeI32 (le : Bool) (i : Int) : List Nat :=
  encode32 le (i % 4294967296).toNat

theorem getUint8_zero (a : Nat) (l : DataView) : getUint8 (a :: l) 0 = .ok a := by
  unfold getUint8
  rw [dif_pos (by simp)]
  rfl

theorem getUint8_cons_succ (a : Nat) (l : DataView) (k : Nat) :
    getUint8 (a :: l) (k + 1) = getUint8 l k := by
  unfold getUint8
  rcases Nat.lt_or_ge k l.length with h | h
  · rw [dif_pos (by simpa using Nat.succ_lt_succ h), dif_pos h]
    simp [List.get]
  · rw [dif_neg (by simp; omega), dif_neg (by omega)]

theorem getUint8_one (a b : Nat) (l : DataView) : getUint8 (a :: b :: l) 1 = .ok b := by
  rw [show (1 : Nat) = 0 + 1 from rfl, getUint8_cons_succ, getUint8_zero]

theorem getUint8_two (a b c : Nat) (l : DataView) : getUint8 (a :: b :: c :: l) 2 = .ok c := by
  rw [show (2 : Nat) = 1 + 1 from rfl, getUint8_cons_succ, getUint8_one]

theorem getUint8_three (a b c d : Nat) (l : DataView) :
    getUint8 (a :: b :: c :: d :: l) 3 = .ok d := by
  rw [show (3 : Nat) = 2 + 1 from rfl, getUint8_cons_succ, getUint8_two]

theorem getUint8_append (pre tail : DataView) (k : Nat) :
    getUint8 (pre ++ tail) (pre.length + k) = getUint8 tail k := by
  induction pre with
  | nil => simp
  | cons a pre ih =>
    have h1 : a :: pre ++ tail = a :: (pre ++ tail) := rfl
    have h2 : (a :: pre).length + k = (pre.length + k) + 1 := by simp; omega
    rw [h1, h2, getUint8_cons_succ, ih]

theorem getUint16_append (pre tail : DataView) (off : Nat) (le : Bool) :
    getUint16 (pre ++ tail) (pre.length + off) le = getUint16 tail off le := by
  unfold getUint16
  rw [getUint8_append, Nat.add_assoc, getUint8_append]

theorem getUint32_append (pre tail : DataView) (off : Nat) (le : Bool) :
    getUint32 (pre ++ tail) (pre.length + off) le = getUint32 tail off le := by
  unfold getUint32
  rw [getUint8_append, Nat.add_assoc, getUint8_append, Nat.add_assoc,
    getUint8_append, Nat.add_assoc, getUint8_append]

theorem getUint16_encode0 (le : Bool) (n : Nat) (tail : DataView) (hn : n < 65536) :
    getUint16 (encode16 le n ++ tail) 0 le = .ok n := by
  cases le <;>
  · unfold getUint16 encode16
    simp only [Bool.false_eq_true, if_false, if_true, List.cons_append, List.nil_append,
      show (0 : Nat) + 1 = 1 from rfl]
    rw [getUint8_zero, getUint8_one]
    show Except.ok _ = _
    simp only [Bool.false_eq_true, if_false, if_true, Except.ok.injEq]
    omega

theorem getUint32_encode0 (le : Bool) (n : Nat) (tail : DataView) (hn : n < 4294967296) :
    getUint32 (encode32 le n ++ tail) 0 le = .ok n := by
  cases le <;>
  · unfold getUint32 encode32
    simp only [Bool.false_eq_true, if_false, if_true, List.cons_append, List.nil_append,
      show (0 : Nat) + 1 = 1 from rfl, show (1 : Nat) + 1 = 2 from rfl,
      show (2 : Nat) + 1 = 3 from rfl]
    rw [getUint8_zero, getUint8_one, getUint8_two, getUint8_three]
    show Except.ok _ = _
    simp only [Bool.false_eq_true, if_false, if_true, Except.ok.injEq]
    omega

theorem getInt32_encode0 (le : Bool) (i : Int) (tail : DataView)
    (h1 : -2147483648 ≤ i) (h2 : i < 2147483648) :
    getInt32 (encodeI32 le i ++ tail) 0 le = .ok i := by
  unfold getInt32 encodeI32
  rw [getUint32_encode0 le _ tail (by omega)]
  show Except.ok _ = _
  simp only [Except.ok.injEq]
  split <;> omega

theorem getUint16_encode (le : Bool) (n : Nat) (pre tail : DataView) (hn : n < 65536) :
    getUint16 (pre ++ (encode16 le n ++ tail)) pre.length le = .ok n := by
  have h := getUint16_append pre (encode16 le n ++ tail) 0 le
  rw [Nat.add_zero] at h
  rw [h, getUint16_encode0 le n tail hn]

theorem getUint32_encode (le : Bool) (n : Nat) (pre tail : DataView) (hn : n < 4294967296) :
    getUint32 (pre ++ (encode32 le n ++ tail)) pre.length le = .ok n := by
  have h := getUint32_append pre (encode32 le n ++ tail) 0 le
  rw [Nat.add_zero] at h
  rw [h, getUint32_encode0 le n tail hn]

theorem getInt32_encode (le : Bool) (i : Int) (pre tail : DataView)
    (h1 : -2147483648 ≤ i) (h2 : i < 2147483648) :
    getInt32 (pre ++ (encodeI32 le i ++ tail)) pre.length le = .ok i := by
  unfold getInt32
  have h := getUint32_append pre (encodeI32 le i ++ tail) 0 le
  rw [Nat.add_zero] at h
  rw [h]
  unfold encodeI32
  rw [getUint32_encode0 le _ tail (by omega)]
  show Except.ok _ = _
  simp only [Except.ok.injEq]
  split <;> omega

theorem encode32_length (le : Bool) (n : Nat) : (encode32 le n).length = 4 := by
  cases le <;> rfl

theorem readTagValue_rational (le : Bool) (pre tail : DataView) (num den evo : Nat)
    (hn : num < 4294967296) (hd : den < 4294967296) :
    readTagValue (pre ++ (encode32 le num ++ (encode32 le den ++ tail))) 5 1 pre.length 0 evo le
      = .ok (.num (if den = 0 then 0 else (num : ℚ) / (den : ℚ))) := by
  unfold readTagValue
  simp only [show ¬ (1 * 8 ≤ 4) from by omega, if_false, if_true,
    show (5 : Nat) ≠ 2 from by omega, Nat.zero_add]
  have hv : pre ++ (encode32 le num ++ (encode32 le den ++ tail))
      = (pre ++ encode32 le num) ++ (encode32 le den ++ tail) := by
    rw [List.append_assoc]
  have hl : (pre ++ encode32 le num).length = pre.length + 4 := by
    simp [encode32_length]
  rw [getUint32_encode le num pre (encode32 le den ++ tail) hn]
  rw [hv, ← hl, getUint32_encode le den (pre ++ encode32 le num) tail hd]
  rfl

theorem encodeI32_length (le : Bool) (i : Int) : (encodeI32 le i).length = 4 := by
  unfold encodeI32
  exact encode32_length le _

theorem readTagValue_srational (le : Bool) (pre tail : DataView) (num den : Int) (evo : Nat)
    (h1 : -2147483648 ≤ num) (h2 : num < 2147483648)
    (h3 : -2147483648 ≤ den) (h4 : den < 2147483648) :
    readTagValue (pre ++ (encodeI32 le num ++ (encodeI32 le den ++ tail))) 10 1 pre.length 0 evo le
      = .ok (.num (if den = 0 then 0 else (num : ℚ) / (den : ℚ))) := by
  unfold readTagValue
  simp only [show ¬ (1 * 8 ≤ 4) from by omega, if_false, if_true,
    show (10 : Nat) ≠ 2 from by omega, Nat.zero_add]
  have hv : pre ++ (encodeI32 le num ++ (encodeI32 le den ++ tail))
      = (pre ++ encodeI32 le num) ++ (encodeI32 le den ++ tail) := by
    rw [List.append_assoc]
  have hl : (pre ++ encodeI32 le num).length = pre.length + 4 := by
    simp [encodeI32_length]
  rw [getInt32_encode le num pre (encodeI32 le den ++ tail) h1 h2]
  rw [hv, ← hl, getInt32_encode le den (pre ++ encodeI32 le num) tail h3 h4]
  rfl

/-- C7: a rational entry decodes numerator and denominator as 4-byte
unsigned integers (signed for the signed-rational type) and yields
`numerator / denominator`; a zero denominator yields `0` without a
division error; the pair `(1, 2)` decodes to `1/2` and every pair `(n, 0)`
to `0`. -/
theorem rational_tag_decode_C7 :
    (∀ (le : Bool) (pre tail : DataView) (num den evo : Nat),
        num < 4294967296 → den < 4294967296 →
        readTagValue (pre ++ (encode32 le num ++ (encode32 le den ++ tail)))
          5 1 pre.length 0 evo le
          = .ok (.num (if den = 0 then 0 else (num : ℚ) / (den : ℚ))))
    ∧ (∀ (le : Bool) (pre tail : DataView) (num den : Int) (evo : Nat),
        -2147483648 ≤ num → num < 2147483648 → -2147483648 ≤ den → den < 2147483648 →
        readTagValue (pre ++ (encodeI32 le num ++ (encodeI32 le den ++ tail)))
          10 1 pre.length 0 evo le
          = .ok (.num (if den = 0 then 0 else (num : ℚ) / (den : ℚ))))
    ∧ (∀ le : Bool, readTagValue (encode32 le 1 ++ encode32 le 2) 5 1 0 0 0 le
          = .ok (.num ((1 : ℚ) / 2)))
    ∧ (∀ (le : Bool) (n : Nat), n < 4294967296 →
        readTagValue (encode32 le n ++ encode32 le 0) 5 1 0 0 0 le = .ok (.num 0)) := by
  refine ⟨?_, ?_, ?_, ?_⟩
  · intro le pre tail num den evo hn hd
    exact readTagValue_rational le pre tail num den evo hn hd
  · intro le pre tail num den evo h1 h2 h3 h4
    exact readTagValue_srational le pre tail num den evo h1 h2 h3 h4
  · intro le
    have h := readTagValue_rational le [] [] 1 2 0 (by norm_num) (by norm_num)
    simpa using h
  · intro le n hn
    have h := readTagValue_rational le [] [] n 0 0 hn (by norm_num)
    simpa using h

theorem rational_tag_decode_C7_witness :
    readTagValue (encode32 true 1 ++ encode32 true 2) 5 1 0 0 0 true = .ok (.num ((1 : ℚ) / 2))
    ∧ readTagValue (encode32 false 7 ++ encode32 false 0) 5 1 0 0 0 false = .ok (.num 0) :=
  ⟨rational_tag_decode_C7.2.2.1 true, rational_tag_decode_C7.2.2.2 false 7 (by norm_num)⟩

/-- Decidable equality for `Except`, used to evaluate the embedding on
concrete inputs. -/
instance {e a : Type} [DecidableEq e] [DecidableEq a] : DecidableEq (Except e a)
  | .ok x, .ok y =>
    if h : x = y then .isTrue (by rw [h]) else .isFalse (by simp [h])
  | .ok _, .error _ => .isFalse (by simp)
  | .error _, .ok _ => .isFalse (by simp)
  | .error x, .error y =>
    if h : x = y then .isTrue (by rw [h]) else .isFalse (by simp [h])

/-- The per-type byte widths of `readTagValue` (`valueBytes` in the
source): 1 for byte/ASCII/undefined, 2 for short, 4 for long/signed long,
8 for rational/signed rational. -/
def typeWidths : List (Nat × Nat) :=
  [(1, 1), (2, 1), (3, 2), (4, 4), (5, 8), (7, 1), (9, 4), (10, 8)]

/-- C5: values of total size `count * width ≤ 4` are read inline from the
entry's value field (the decode does not depend on the offset
interpretation of that field), larger values are read at `tiffStart +
valueOffset` (the decode does not depend on the entry field's location);
an inline 4-byte ASCII value and an out-of-line 5-byte ASCII value with
the same underlying characters decode to the same string. -/
theorem inline_offset_rule_C5 :
    (∀ (view : DataView) (t w count vo vo2 ts evo : Nat) (le : Bool),
        (t, w) ∈ typeWidths → count * w ≤ 4 →
        readTagValue view t count vo ts evo le = readTagValue view t count vo2 ts evo le)
    ∧ (∀ (view : DataView) (t w count vo ts evo evo2 : Nat) (le : Bool),
        (t, w) ∈ typeWidths → 4 < count * w →
        readTagValue view t count vo ts evo le = readTagValue view t count vo ts evo2 le)
    ∧ (∀ le : Bool, readTagValue [0x41, 0x63, 0x6D, 0x65] 2 4 0 0 0 le = .ok (.str "Acme"))
    ∧ (∀ le : Bool,
        readTagValue [0, 0, 0, 0, 0x41, 0x63, 0x6D, 0x65, 0] 2 5 4 0 0 le
          = .ok (.str "Acme")) := by
  refine ⟨?_, ?_, ?_, ?_⟩
  · intro view t w count vo vo2 ts evo le hmem hle
    simp only [typeWidths, List.mem_cons, List.not_mem_nil, or_false, Prod.mk.injEq] at hmem
    rcases hmem with ⟨h1, h2⟩ | ⟨h1, h2⟩ | ⟨h1, h2⟩ | ⟨h1, h2⟩ | ⟨h1, h2⟩ | ⟨h1, h2⟩ |
      ⟨h1, h2⟩ | ⟨h1, h2⟩ <;> subst h1 <;> subst h2 <;>
      · simp only [readTagValue, if_pos hle]
  · intro view t w count vo ts evo evo2 le hmem hgt
    have hn : ¬ (count * w ≤ 4) := by omega
    simp only [typeWidths, List.mem_cons, List.not_mem_nil, or_false, Prod.mk.injEq] at hmem
    rcases hmem with ⟨h1, h2⟩ | ⟨h1, h2⟩ | ⟨h1, h2⟩ | ⟨h1, h2⟩ | ⟨h1, h2⟩ | ⟨h1, h2⟩ |
      ⟨h1, h2⟩ | ⟨h1, h2⟩ <;> subst h1 <;> subst h2 <;>
      · simp only [readTagValue, if_neg hn]
  · intro le
    cases le <;> decide
  · intro le
    cases le <;> decide

theorem inline_offset_rule_C5_witness :
    readTagValue [0x05, 0x00] 3 1 7 0 0 true = readTagValue [0x05, 0x00] 3 1 123 0 0 true
    ∧ readTagValue [1, 0, 0, 0, 2, 0, 0, 0] 5 1 0 0 3 true
        = readTagValue [1, 0, 0, 0, 2, 0, 0, 0] 5 1 0 0 99 true :=
  ⟨inline_offset_rule_C5.1 [0x05, 0x00] 3 2 1 7 123 0 0 true (by decide) (by decide),
   inline_offset_rule_C5.2.1 [1, 0, 0, 0, 2, 0, 0, 0] 5 8 1 0 0 3 99 true
     (by decide) (by decide)⟩

/-- An extraction state whose GPS sub-IFD holds exactly the four
latitude/longitude tags, with the given reference and value entries
(types/counts as a camera writes them: ASCII refs, rational triples). -/
def gpsCoordEd (latRef latVal lonRef lonVal : JsVal) : ExifData :=
  { exifFound := true,
    gps := some [⟨0x0001, 2, 2, latRef⟩, ⟨0x0002, 5, 3, latVal⟩,
                 ⟨0x0003, 2, 2, lonRef⟩, ⟨0x0004, 5, 3, lonVal⟩] }

theorem except_ok_bind {e a b : Type} (x : a) (f : a → Except e b) :
    (Except.ok x : Except e a) >>= f = f x := rfl

/-- C8: with all four GPS tags present, a degrees/minutes/seconds array
converts to `deg + min/60 + sec/3600` signed decimal degrees, negated
exactly when the latitude reference is `"S"` (resp. `"W"` for longitude);
a single decimal number obeys the same sign rule; `[40, 26, 46]` with
reference `"N"` yields `72803/1800` (which is `40.446111` to within
`10⁻⁶`) and reference `"S"` its negation. -/
theorem gps_dms_conversion_C8 :
    (∀ (d mi se lod lom los : ℚ) (latR lonR : String),
      (processExifData (gpsCoordEd (.str latR) (.arr [d, mi, se]) (.str lonR)
            (.arr [lod, lom, los]))).gpsLatitude
          = some (if latR = "S" then -(d + mi / 60 + se / 3600) else d + mi / 60 + se / 3600)
        ∧ (processExifData (gpsCoordEd (.str latR) (.arr [d, mi, se]) (.str lonR)
            (.arr [lod, lom, los]))).gpsLongitude
          = some (if lonR = "W" then -(lod + lom / 60 + los / 3600)
              else lod + lom / 60 + los / 3600))
    ∧ (∀ (la lo : ℚ) (latR lonR : String),
      (processExifData (gpsCoordEd (.str latR) (.num la) (.str lonR) (.num lo))).gpsLatitude
          = some (if latR = "S" then -la else la)
        ∧ (processExifData (gpsCoordEd (.str latR) (.num la) (.str lonR)
            (.num lo))).gpsLongitude = some (if lonR = "W" then -lo else lo))
    ∧ (processExifData (gpsCoordEd (.str "N") (.arr [40, 26, 46]) (.str "E")
          (.arr [0, 0, 0]))).gpsLatitude = some (72803 / 1800)
    ∧ (processExifData (gpsCoordEd (.str "S") (.arr [40, 26, 46]) (.str "E")
          (.arr [0, 0, 0]))).gpsLatitude = some (-(72803 / 1800))
    ∧ |(72803 : ℚ) / 1800 - 40446111 / 1000000| < 1 / 1000000 := by
  refine ⟨?_, ?_, ?_, ?_, by rw [abs_sub_lt_iff]; norm_num⟩
  · intro d mi se lod lom los latR lonR
    constructor <;>
      simp [processExifData, gpsCoordEd, tagSteps, tagStep, ifdFind, List.find?, gpsStep,
        gpsTimeStep, gpsDecimal, jsOr, optTruthy, Option.getD, except_ok_bind]
  · intro la lo latR lonR
    constructor <;>
      simp [processExifData, gpsCoordEd, tagSteps, tagStep, ifdFind, List.find?, gpsStep,
        gpsTimeStep, gpsDecimal, jsOr, optTruthy, Option.getD, except_ok_bind]
  · simp [processExifData, gpsCoordEd, tagSteps, tagStep, ifdFind, List.find?, gpsStep,
      gpsTimeStep, gpsDecimal, jsOr, optTruthy, Option.getD, except_ok_bind]
    norm_num
  · simp [processExifData, gpsCoordEd, tagSteps, tagStep, ifdFind, List.find?, gpsStep,
      gpsTimeStep, gpsDecimal, jsOr, optTruthy, Option.getD, except_ok_bind]
    norm_num

/-- The minimal hand-built buffer of the spec's end-to-end property: SOI
marker, APP1 segment (size 30) whose payload is `"Exif\x00\x00"` followed
by a little-endian TIFF header (magic 42, IFD0 at offset 8) and a
single-entry IFD0 with tag `0x010F`, ASCII type, count 4, inline value
`"Acme"`. -/
def acmeBuf : DataView :=
  [0xFF, 0xD8, 0xFF, 0xE1, 0x00, 0x1E,
   0x45, 0x78, 0x69, 0x66, 0x00, 0x00,
   0x49, 0x49, 0x2A, 0x00, 0x08, 0x00, 0x00, 0x00,
   0x01, 0x00,
   0x0F, 0x01, 0x02, 0x00, 0x04, 0x00, 0x00, 0x00, 0x41, 0x63, 0x6D, 0x65]

/-- C3 (code bug): on the spec's minimal `"Acme"` buffer the pipeline
returns `hasExif = false` and no `make` at all.  The scanner compares the
NUL-terminated read `getStringFromView(view, offset+4, 6)` — which stops
at the first NUL and yields `"Exif"` — against the 6-character literal
`"Exif\x00\x00"`, so the Exif branch never fires (conjuncts 1–2 exhibit
the mismatch on this buffer).  The last conjunct shows the TIFF stage
itself decodes `make = "Acme"` from the very same bytes once the segment
is (counterfactually) recognised, pinning the slip to the comparison. -/
theorem acme_pipeline_C3 :
    getStringFromView acmeBuf 6 6 = .ok "Exif"
    ∧ ("Exif" = "Exif\x00\x00") = False
    ∧ (∃ ed, parseExifData acmeBuf = .ok ed ∧ ed.exifFound = false
        ∧ (processExifData ed).hasExif = false ∧ (processExifData ed).make = none)
    ∧ (∃ ed2, parseTiffData acmeBuf 12 { exifFound := true, exifOffset := some 12 } = .ok ed2
        ∧ (processExifData ed2).make = some (.str "Acme")) := by
  refine ⟨by decide, by simp, ⟨_, rfl, by decide, by decide, by decide⟩,
    ⟨_, rfl, by decide⟩⟩

/-- A TIFF block whose byte-order marker is `"MN"` (`0x4D4E`) — neither
`"II"` nor `"MM"` — followed by a big-endian magic 42, IFD0 at offset 8,
and one big-endian ASCII entry `0x010F = "Ab"`. -/
def mnTiff : DataView :=
  [0x4D, 0x4E, 0x00, 0x2A, 0x00, 0x00, 0x00, 0x08,
   0x00, 0x01,
   0x01, 0x0F, 0x00, 0x02, 0x00, 0x00, 0x00, 0x02, 0x41, 0x62, 0x00, 0x00]

/-- C4 counterexample: the order marker `"MN"` (`0x4D4E`), which is
neither `"II"` nor `"MM"`, is not treated as an error: the TIFF block
parses to completion as big-endian, decoding the `0x010F` entry. -/
theorem byte_order_marker_C4_counterexample :
    getUint16 mnTiff 0 false = .ok 0x4D4E
    ∧ (0x4D4E ≠ 0x4949 ∧ 0x4D4E ≠ 0x4D4D)
    ∧ ∃ ed, parseTiffData mnTiff 0 {} = .ok ed ∧ ed.byteOrder = some false
        ∧ ed.ifd0 = some [⟨0x010F, 2, 2, .str "Ab"⟩] := by
  refine ⟨by decide, ⟨by decide, by decide⟩, _, rfl, by decide, by decide⟩

theorem except_error_bind {e a b : Type} (x : e) (f : a → Except e b) :
    (Except.error x : Except e a) >>= f = .error x := rfl

theorem except_throw {e a : Type} (x : e) : (throw x : Except e a) = .error x := rfl

theorem except_pure {e a : Type} (x : a) : (pure x : Except e a) = .ok x := rfl

/-- C4 as amended: the order-marker value `"II"` (`0x4949`) selects
little-endian and every other value — `"MM"` included — selects
big-endian; the flag recorded in `_byteOrder` (and threaded to every
subsequent multi-byte read of the TIFF block) is `littleEndian = (marker =
0x4949)`, whether the parse succeeds or throws. -/
theorem byte_order_selection_C4 (view : DataView) (ts : Nat) (ed : ExifData) (w : Nat)
    (h : getUint16 view ts false = .ok w) :
    (match parseTiffData view ts ed with
     | .ok r => r.byteOrder
     | .error r => r.byteOrder) = some (decide (w = 0x4949)) := by
  unfold parseTiffData
  rw [h]
  simp only [pure_bind, except_ok_bind, except_error_bind, except_throw]
  repeat' split
  all_goals rename_i heq
  all_goals repeat' split at heq
  all_goals try simp only [except_pure, Except.ok.injEq, Except.error.injEq] at heq
  all_goals first
    | (subst heq; rfl)
    | cases heq

theorem byte_order_selection_C4_witness :
    ((match parseTiffData mnTiff 0 {} with
      | .ok r => r.byteOrder
      | .error r => r.byteOrder) = some (decide ((0x4D4E : Nat) = 0x4949)))
    ∧ ((match parseTiffData acmeBuf 12 {} with
      | .ok r => r.byteOrder
      | .error r => r.byteOrder) = some (decide ((0x4949 : Nat) = 0x4949))) :=
  ⟨byte_order_selection_C4 mnTiff 0 {} 0x4D4E (by decide),
   byte_order_selection_C4 acmeBuf 12 {} 0x4949 (by decide)⟩

theorem char_ofNat_toNat_byte (c : Nat) (h : c < 256) : (Char.ofNat c).toNat = c := by
  have hv : Nat.isValidChar c := Or.inl (by omega)
  unfold Char.ofNat
  rw [dif_pos hv]
  rfl

theorem getUint8_ok_lt (view : DataView) (off b : Nat) (hwf : ∀ x ∈ view, x < 256)
    (h : getUint8 view off = .ok b) : b < 256 := by
  unfold getUint8 at h
  by_cases hl : off < view.length
  · rw [dif_pos hl] at h
    have hb : view.get ⟨off, hl⟩ = b := Except.ok.injEq _ _ |>.mp h
    rw [← hb]
    exact hwf _ (List.get_mem view off hl)
  · rw [dif_neg hl] at h
    cases h

theorem readChars_nul_free (view : DataView) (hwf : ∀ x ∈ view, x < 256) :
    ∀ (len off : Nat) (s : String), readCharsFromView view off len = .ok s →
      ∀ c ∈ s.data, c ≠ Char.ofNat 0 := by
  intro len
  induction len with
  | zero =>
    intro off s h c hc
    simp only [readCharsFromView] at h
    cases h
    simp at hc
  | succ n ih =>
    intro off s h c hc
    simp only [readCharsFromView] at h
    cases hb : getUint8 view off with
    | error e => rw [hb] at h; cases h
    | ok b =>
      rw [hb] at h
      simp only [except_ok_bind] at h
      by_cases h0 : b = 0
      · rw [if_pos h0] at h
        cases h
        simp at hc
      · rw [if_neg h0] at h
        cases hr : readCharsFromView view (off + 1) n with
        | error e => rw [hr] at h; cases h
        | ok rest =>
          rw [hr] at h
          simp only [except_ok_bind, except_pure, Except.ok.injEq] at h
          subst h
          have hlt : b < 256 := getUint8_ok_lt view off b hwf hb
          rcases (by simpa using hc : c = Char.ofNat b ∨ c ∈ rest.data) with hm | hm
          · subst hm
            intro heq
            have := congrArg Char.toNat heq
            rw [char_ofNat_toNat_byte b hlt, char_ofNat_toNat_byte 0 (by omega)] at this
            exact h0 this
          · exact ih (off + 1) rest hr c hm

theorem readChars_ne_exif_header (view : DataView) (hwf : ∀ x ∈ view, x < 256)
    (len off : Nat) (s : String) (h : readCharsFromView view off len = .ok s) :
    ¬ (s = "Exif\x00\x00") := by
  intro heq
  subst heq
  exact readChars_nul_free view hwf len off _ h (Char.ofNat 0) (by decide) rfl

/-- The segment scan can never set `_exifFound`: the Exif-identifier
comparison of the source compares a NUL-terminated read against a literal
containing NUL characters, which no byte buffer satisfies. -/
theorem scanSegments_exifFound (view : DataView) (hwf : ∀ x ∈ view, x < 256) :
    ∀ (fuel off : Nat) (ed : ExifData), ed.exifFound = false →
      (match scanSegments view off ed fuel with
       | .ok r => r.exifFound
       | .error r => r.exifFound) = false := by
  intro fuel
  induction fuel with
  | zero =>
    intro off ed hed
    simpa [scanSegments] using hed
  | succ n ih =>
    intro off ed hed
    simp only [scanSegments]
    by_cases hoff : off + 1 < view.length
    · rw [if_pos hoff]
      cases h0 : getUint8 view off with
      | error e => exact hed
      | ok b =>
        dsimp only
        by_cases hb : b ≠ 0xFF
        · rw [if_pos hb]
          exact ih _ _ hed
        · rw [if_neg hb]
          cases h1 : getUint8 view (off + 1) with
          | error e => exact hed
          | ok marker =>
            dsimp only
            by_cases hm : marker = 0xD9
            · rw [if_pos hm]
              exact hed
            · rw [if_neg hm]
              by_cases hsk : marker = 0xD0 ∨ marker = 0xD1 ∨ marker = 0xD2 ∨
                  marker = 0xD3 ∨ marker = 0xD4 ∨ marker = 0xD5 ∨
                  marker = 0xD6 ∨ marker = 0xD7 ∨ marker = 0xD8 ∨ marker = 0xD9
              · rw [if_pos hsk]
                exact ih _ _ hed
              · rw [if_neg hsk]
                cases h2 : getUint16 view (off + 2) false with
                | error e => exact hed
                | ok sz =>
                  dsimp only
                  by_cases hsz : sz < 2
                  · rw [if_pos hsz]
                    exact ih _ _ hed
                  · rw [if_neg hsz]
                    by_cases he1 : marker = 0xE1
                    · rw [if_pos he1]
                      cases h3 : getStringFromView view (off + 4) 6 with
                      | error e =>
                        dsimp only [except_throw, except_error_bind]
                        exact hed
                      | ok hdr =>
                        dsimp only
                        rw [if_neg (readChars_ne_exif_header view hwf 6 (off + 4) hdr h3)]
                        dsimp only [except_pure, except_ok_bind]
                        exact ih _ _ hed
                    · rw [if_neg he1]
                      dsimp only [except_pure, except_ok_bind]
                      exact ih _ _ hed
    · rw [if_neg hoff]
      exact hed

/-- Do the bytes at `off`, `off+1`, … equal the given list (all reads in
bounds)? -/
def bytesAtEq (view : DataView) (off : Nat) : List Nat → Bool
  | [] => true
  | b :: r => decide (getUint8 view off = .ok b) && bytesAtEq view (off + 1) r

/-- An APP1/Exif segment at `off` whose TIFF header's magic constant, read
in the byte order its order marker selects, differs from 42: marker bytes
`FF E1`, a well-formed segment length, the `"Exif\x00\x00"` identifier,
and a readable magic word that is not 42. -/
def badMagicSegmentAt (view : DataView) (off : Nat) : Bool :=
  bytesAtEq view off [0xFF, 0xE1] &&
  (match getUint16 view (off + 2) false with
   | .ok sz => decide (2 ≤ sz)
   | .error _ => false) &&
  bytesAtEq view (off + 4) [0x45, 0x78, 0x69, 0x66, 0, 0] &&
  (match getUint16 view (off + 10) false with
   | .ok w =>
     match getUint16 view (off + 12) (decide (w = 0x4949)) with
     | .ok c => decide (c ≠ 42)
     | .error _ => false
   | .error _ => false)

/-- A JPEG (leading SOI marker) containing an APP1/Exif segment with a bad
TIFF magic somewhere. -/
def hasBadMagicExifSegment (view : DataView) : Bool :=
  bytesAtEq view 0 [0xFF, 0xD8] &&
  (List.range view.length).any (fun off => badMagicSegmentAt view off)

/-- C2: on every byte buffer that is a JPEG with an APP1/Exif segment
whose TIFF magic is not 42, the parse returns without throwing and the
metadata is exactly the degraded no-Exif result: `hasExif = false` and
nothing else set.  (In this code base the conclusion holds for the
stronger reason that the scanner's Exif-identifier comparison
`getStringFromView(..) === "Exif\x00\x00"` never succeeds, so the TIFF
stage — including its magic check — is never even entered from the
scanner; `_exifFound` stays `false` for every buffer, which is the same
observable outcome the claim describes.) -/
theorem bad_tiff_magic_C2 (view : DataView) (hwf : ∀ x ∈ view, x < 256)
    (hbad : hasBadMagicExifSegment view = true) :
    ∃ ed, parseExifData view = .ok ed ∧ ed.exifFound = false
      ∧ processExifData ed = { hasExif := false } := by
  have hsoi : getUint8 view 0 = .ok 0xFF ∧ getUint8 view 1 = .ok 0xD8 := by
    have h1 := (Bool.and_eq_true _ _).mp hbad |>.1
    simp only [bytesAtEq, Bool.and_eq_true, decide_eq_true_eq] at h1
    exact ⟨h1.1, h1.2.1⟩
  have hfound : (match scanSegments view 2 {} view.length with
      | .ok r => r.exifFound
      | .error r => r.exifFound) = false :=
    scanSegments_exifFound view hwf view.length 2 {} rfl
  have hproc : ∀ ed : ExifData, ed.exifFound = false →
      processExifData ed = { hasExif := false } := by
    intro ed hed
    unfold processExifData
    rw [hed]
    rfl
  unfold parseExifData
  rw [hsoi.1]
  dsimp only [except_ok_bind]
  rw [if_neg (by omega)]
  rw [hsoi.2]
  dsimp only [except_ok_bind]
  rw [if_neg (by omega)]
  cases hs : scanSegments view 2 {} view.length with
  | ok r =>
    rw [hs] at hfound
    exact ⟨r, rfl, hfound, hproc r hfound⟩
  | error r =>
    rw [hs] at hfound
    exact ⟨{ r with parseError := true }, rfl, hfound, hproc _ hfound⟩

/-- A concrete JPEG with an APP1/Exif segment whose little-endian TIFF
header carries magic 43 instead of 42. -/
def badMagicBuf : DataView :=
  [0xFF, 0xD8, 0xFF, 0xE1, 0x00, 0x1E,
   0x45, 0x78, 0x69, 0x66, 0x00, 0x00,
   0x49, 0x49, 0x2B, 0x00, 0x08, 0x00, 0x00, 0x00,
   0x01, 0x00,
   0x0F, 0x01, 0x02, 0x00, 0x04, 0x00, 0x00, 0x00, 0x41, 0x63, 0x6D, 0x65]

theorem bad_tiff_magic_C2_witness :
    (∀ x ∈ badMagicBuf, x < 256) ∧ hasBadMagicExifSegment badMagicBuf = true
    ∧ ∃ ed, parseExifData badMagicBuf = .ok ed ∧ ed.exifFound = false
        ∧ processExifData ed = { hasExif := false } :=
  ⟨by decide, by decide, bad_tiff_magic_C2 badMagicBuf (by decide) (by decide)⟩

theorem jsToISOString_isOk (ms : Int) (h : ms.natAbs ≤ jsMaxTime) :
    ∃ iso, jsToISOString ms = .ok iso := by
  unfold jsToISOString
  rw [if_neg (by omega)]
  exact ⟨_, rfl⟩

theorem optTruthy_isSome (v : Option JsVal) (h : optTruthy v = true) : v.isSome = true := by
  cases v with
  | none => simp [optTruthy] at h
  | some x => rfl

/-- C1 as amended: for an image file whose modification timestamp is a
representable, non-zero `Date` value, extraction never throws, the result
carries `originalTimestamp` and some `dateCreated`, and a failure that
reaches the top-level handler additionally sets `extractionError` and
derives `dateCreated` from the fallback timestamp.  (The claim as stated
fails for a zero fallback timestamp, see the counterexample.) -/
theorem extraction_totality_C1 (file : JsFile)
    (himg : jsStartsWith file.type "image/" = true)
    (hts : file.lastModified ≠ 0)
    (hrange : file.lastModified.natAbs ≤ jsMaxTime) :
    ∃ m iso, extractExifMetadata file = .ok m
      ∧ jsToISOString file.lastModified = .ok iso
      ∧ m.originalTimestamp = some file.lastModified
      ∧ m.dateCreated.isSome = true
      ∧ (∀ e, parseExifData file.bytes = .error e →
          m.extractionError = true ∧ m.dateCreated = some (.str iso)) := by
  obtain ⟨iso, hiso⟩ := jsToISOString_isOk file.lastModified hrange
  unfold extractExifMetadata
  rw [if_neg (by simp [himg])]
  cases hp : parseExifData file.bytes with
  | error e =>
    dsimp only [except_error_bind]
    rw [hiso]
    dsimp only [except_ok_bind, except_pure]
    exact ⟨_, iso, rfl, rfl, rfl, rfl, fun _ _ => ⟨rfl, rfl⟩⟩
  | ok ed =>
    dsimp only [except_ok_bind]
    by_cases hdc : optTruthy (processExifData ed).dateCreated = false
    · rw [if_pos ⟨hdc, hts⟩]
      rw [hiso]
      dsimp only [except_ok_bind, except_pure]
      refine ⟨_, iso, rfl, rfl, rfl, rfl, fun e he => ?_⟩
      cases he
    · rw [if_neg (by simp [hdc])]
      refine ⟨_, iso, rfl, hiso, rfl, ?_, fun e he => ?_⟩
      · exact optTruthy_isSome _ (by simpa using hdc)
      · cases he

/-- C1 counterexample: with a zero (epoch) fallback timestamp and a
truncated APP1 segment, an internal stage fails (the scanner's length read
throws and is caught, setting `_parseError`), yet the returned object has
no `dateCreated` at all: the fallback fill `!metadata.dateCreated &&
file.lastModified` skips a falsy (zero) timestamp.  The claim's "a
dateCreated derived from it" therefore does not hold for every fallback
timestamp. -/
theorem extraction_totality_C1_counterexample :
    ∃ ed m, parseExifData [0xFF, 0xD8, 0xFF, 0xE1] = .ok ed ∧ ed.parseError = true
      ∧ extractExifMetadata ⟨"image/jpeg", 0, [0xFF, 0xD8, 0xFF, 0xE1]⟩ = .ok m
      ∧ m.originalTimestamp = some 0 ∧ m.dateCreated = none := by
  refine ⟨_, _, rfl, by decide, rfl, by decide, by decide⟩

theorem extraction_totality_C1_witness :
    jsStartsWith "image/jpeg" "image/" = true ∧ (1000 : Int) ≠ 0
    ∧ (1000 : Int).natAbs ≤ jsMaxTime
    ∧ ∃ m iso, extractExifMetadata ⟨"image/jpeg", 1000, [0xFF]⟩ = .ok m
        ∧ jsToISOString 1000 = .ok iso
        ∧ m.originalTimestamp = some 1000
        ∧ m.dateCreated.isSome = true
        ∧ (∀ e, parseExifData [0xFF] = .error e →
            m.extractionError = true ∧ m.dateCreated = some (.str iso)) :=
  ⟨by decide, by decide, by decide,
    extraction_totality_C1 ⟨"image/jpeg", 1000, [0xFF]⟩ (by decide) (by decide) (by decide)⟩

theorem char_isDigit_toNat (c : Char) (h : c.isDigit = true) :
    48 ≤ c.toNat ∧ c.toNat ≤ 57 := by
  unfold Char.isDigit at h
  simp only [Bool.and_eq_true, decide_eq_true_eq] at h
  exact ⟨h.1, h.2⟩

theorem digits_foldl_lt (l : List Char) :
    ∀ a : Nat, (∀ c ∈ l, c.isDigit = true) →
      l.foldl (fun a c => a * 10 + (c.toNat - 48)) a < (a + 1) * 10 ^ l.length := by
  induction l with
  | nil =>
    intro a _
    simp only [List.foldl_nil, List.length_nil, pow_zero, Nat.mul_one]
    exact Nat.lt_succ_self a
  | cons c l ih =>
    intro a hd
    have hc := char_isDigit_toNat c (hd c (by simp))
    have h1 : l.foldl (fun a c => a * 10 + (c.toNat - 48)) (a * 10 + (c.toNat - 48))
        < (a * 10 + (c.toNat - 48) + 1) * 10 ^ l.length :=
      ih _ (fun x hx => hd x (by simp [hx]))
    have h2 : (a * 10 + (c.toNat - 48) + 1) * 10 ^ l.length ≤ (a + 1) * 10 ^ (l.length + 1) := by
      have he : (a + 1) * 10 ^ (l.length + 1) = ((a + 1) * 10) * 10 ^ l.length := by ring
      rw [he]
      exact Nat.mul_le_mul_right _ (by omega)
    have h3 := h1.trans_le h2
    simpa using h3

theorem digitsToNat_lt (l : List Char) (hd : ∀ c ∈ l, c.isDigit = true) :
    digitsToNat l < 10 ^ l.length := by
  have h := digits_foldl_lt l 0 hd
  simpa [digitsToNat] using h

theorem jsDateUTCms_natAbs_le (y mo d h mi s : Int)
    (hy0 : 0 ≤ y) (hy : y < 10000) (hm0 : 0 ≤ mo) (hm : mo < 100)
    (hd0 : 0 ≤ d) (hd : d < 100) (hh0 : 0 ≤ h) (hh : h < 100)
    (hmi0 : 0 ≤ mi) (hmi : mi < 100) (hs0 : 0 ≤ s) (hs : s < 100) :
    (jsDateUTCms y (mo - 1) d h mi s).natAbs ≤ jsMaxTime := by
  simp only [jsDateUTCms, jsMakeDay, jsTwoDigitYear, daysFromCivil, jsMaxTime]
  split_ifs <;> omega

theorem parseExifDate_bounds (s : String) (c : Nat × Nat × Nat × Nat × Nat × Nat)
    (h : parseExifDate s = some c) :
    c.1 < 10000 ∧ c.2.1 < 100 ∧ c.2.2.1 < 100 ∧ c.2.2.2.1 < 100
      ∧ c.2.2.2.2.1 < 100 ∧ c.2.2.2.2.2 < 100 := by
  unfold parseExifDate at h
  split at h
  · rename_i y1 y2 y3 y4 c1 a1 a2 c2 b1 b2 sp h1 h2 c3 m1 m2 c4 s1 s2 hdata
    split at h
    · rename_i hcond
      simp only [List.all_eq_true, List.mem_cons, List.not_mem_nil] at hcond
      obtain ⟨hdig, _⟩ := hcond
      injection h with h
      subst h
      refine ⟨?_, ?_, ?_, ?_, ?_, ?_⟩ <;>
        · refine lt_of_lt_of_le (digitsToNat_lt _ ?_) (by norm_num)
          intro x hx
          apply hdig
          simp only [List.mem_cons, List.not_mem_nil, or_false] at hx ⊢
          tauto
    · cases h
  · cases h

theorem formatTagValue_isOk (v : JsVal) (tag : Nat) :
    ∃ r, formatTagValue v tag = .ok r := by
  unfold formatTagValue
  cases v with
  | undef => exact ⟨_, rfl⟩
  | nan =>
    dsimp only
    by_cases htag : tag = 0x0132 ∨ tag = 0x9003 ∨ tag = 0x9004
    · rw [if_pos htag]; exact ⟨_, rfl⟩
    · rw [if_neg htag]; exact ⟨_, rfl⟩
  | num q =>
    dsimp only
    by_cases htag : tag = 0x0132 ∨ tag = 0x9003 ∨ tag = 0x9004
    · rw [if_pos htag]; exact ⟨_, rfl⟩
    · rw [if_neg htag]; exact ⟨_, rfl⟩
  | arr l =>
    dsimp only
    by_cases htag : tag = 0x0132 ∨ tag = 0x9003 ∨ tag = 0x9004
    · rw [if_pos htag]; exact ⟨_, rfl⟩
    · rw [if_neg htag]; exact ⟨_, rfl⟩
  | str s =>
    dsimp only
    by_cases htag : tag = 0x0132 ∨ tag = 0x9003 ∨ tag = 0x9004
    · rw [if_pos htag]
      cases hp : parseExifDate s with
      | none => exact ⟨_, rfl⟩
      | some c =>
        obtain ⟨b1, b2, b3, b4, b5, b6⟩ := parseExifDate_bounds s c hp
        have hms := jsDateUTCms_natAbs_le (c.1 : Int) (c.2.1 : Int) (c.2.2.1 : Int)
          (c.2.2.2.1 : Int) (c.2.2.2.2.1 : Int) (c.2.2.2.2.2 : Int)
          (by positivity) (by exact_mod_cast b1) (by positivity) (by exact_mod_cast b2)
          (by positivity) (by exact_mod_cast b3) (by positivity) (by exact_mod_cast b4)
          (by positivity) (by exact_mod_cast b5) (by positivity) (by exact_mod_cast b6)
        obtain ⟨iso, hiso⟩ := jsToISOString_isOk _ hms
        dsimp only
        rw [hiso]
        exact ⟨_, rfl⟩
    · rw [if_neg htag]
      exact ⟨_, rfl⟩

/-- Equality of every `Metadata` field the fourteen tag-assignment lines
never touch. -/
def nonTagFieldsEq (a b : Metadata) : Prop :=
  a.hasExif = b.hasExif ∧ a.dateCreated = b.dateCreated ∧ a.hasGpsData = b.hasGpsData
    ∧ a.gpsLatitude = b.gpsLatitude ∧ a.gpsLongitude = b.gpsLongitude
    ∧ a.gpsAltitude = b.gpsAltitude ∧ a.gpsTimestamp = b.gpsTimestamp
    ∧ a.gpsDateTime = b.gpsDateTime ∧ a.processingError = b.processingError
    ∧ a.originalTimestamp = b.originalTimestamp ∧ a.extractionError = b.extractionError

theorem nonTagFieldsEq_refl (m : Metadata) : nonTagFieldsEq m m :=
  ⟨rfl, rfl, rfl, rfl, rfl, rfl, rfl, rfl, rfl, rfl, rfl⟩

theorem nonTagFieldsEq_trans {a b c : Metadata} (h1 : nonTagFieldsEq a b)
    (h2 : nonTagFieldsEq b c) : nonTagFieldsEq a c := by
  obtain ⟨x1, x2, x3, x4, x5, x6, x7, x8, x9, x10, x11⟩ := h1
  obtain ⟨y1, y2, y3, y4, y5, y6, y7, y8, y9, y10, y11⟩ := h2
  exact ⟨x1.trans y1, x2.trans y2, x3.trans y3, x4.trans y4, x5.trans y5, x6.trans y6,
    x7.trans y7, x8.trans y8, x9.trans y9, x10.trans y10, x11.trans y11⟩

theorem tagStep_ok (ifd : IfdMap) (tag : Nat) (set : Metadata → JsVal → Metadata)
    (m : Metadata) (hset : ∀ m v, nonTagFieldsEq (set m v) m) :
    ∃ m2, tagStep ifd tag set m = .ok m2 ∧ nonTagFieldsEq m2 m := by
  unfold tagStep
  cases ifdFind ifd tag with
  | none => exact ⟨m, rfl, nonTagFieldsEq_refl m⟩
  | some e =>
    dsimp only
    obtain ⟨r, hr⟩ := formatTagValue_isOk e.value tag
    rw [hr]
    exact ⟨set m r, rfl, hset m r⟩

theorem tagSteps_ok (ifd0 exif : IfdMap) (m0 : Metadata) :
    ∃ m, tagSteps ifd0 exif m0 = .ok m ∧ nonTagFieldsEq m m0 := by
  unfold tagSteps
  obtain ⟨m1, h1, p1⟩ := tagStep_ok ifd0 0x010F (fun m v => { m with make := some v }) m0
    (fun m v => ⟨rfl, rfl, rfl, rfl, rfl, rfl, rfl, rfl, rfl, rfl, rfl⟩)
  rw [h1]
  dsimp only [except_ok_bind]
  obtain ⟨m2, h2, p2⟩ := tagStep_ok ifd0 0x0110 (fun m v => { m with model := some v }) m1
    (fun m v => ⟨rfl, rfl, rfl, rfl, rfl, rfl, rfl, rfl, rfl, rfl, rfl⟩)
  rw [h2]
  dsimp only [except_ok_bind]
  obtain ⟨m3, h3, p3⟩ := tagStep_ok ifd0 0x0132 (fun m v => { m with dateModified := some v }) m2
    (fun m v => ⟨rfl, rfl, rfl, rfl, rfl, rfl, rfl, rfl, rfl, rfl, rfl⟩)
  rw [h3]
  dsimp only [except_ok_bind]
  obtain ⟨m4, h4, p4⟩ := tagStep_ok ifd0 0x010E (fun m v => { m with imageDescription := some v }) m3
    (fun m v => ⟨rfl, rfl, rfl, rfl, rfl, rfl, rfl, rfl, rfl, rfl, rfl⟩)
  rw [h4]
  dsimp only [except_ok_bind]
  obtain ⟨m5, h5, p5⟩ := tagStep_ok ifd0 0x8298 (fun m v => { m with copyright := some v }) m4
    (fun m v => ⟨rfl, rfl, rfl, rfl, rfl, rfl, rfl, rfl, rfl, rfl, rfl⟩)
  rw [h5]
  dsimp only [except_ok_bind]
  obtain ⟨m6, h6, p6⟩ := tagStep_ok exif 0x829A (fun m v => { m with exposureTime := some v }) m5
    (fun m v => ⟨rfl, rfl, rfl, rfl, rfl, rfl, rfl, rfl, rfl, rfl, rfl⟩)
  rw [h6]
  dsimp only [except_ok_bind]
  obtain ⟨m7, h7, p7⟩ := tagStep_ok exif 0x829D (fun m v => { m with fNumber := some v }) m6
    (fun m v => ⟨rfl, rfl, rfl, rfl, rfl, rfl, rfl, rfl, rfl, rfl, rfl⟩)
  rw [h7]
  dsimp only [except_ok_bind]
  obtain ⟨m8, h8, p8⟩ := tagStep_ok exif 0x8827 (fun m v => { m with isoSpeedRatings := some v }) m7
    (fun m v => ⟨rfl, rfl, rfl, rfl, rfl, rfl, rfl, rfl, rfl, rfl, rfl⟩)
  rw [h8]
  dsimp only [except_ok_bind]
  obtain ⟨m9, h9, p9⟩ := tagStep_ok exif 0x9003 (fun m v => { m with dateTimeOriginal := some v }) m8
    (fun m v => ⟨rfl, rfl, rfl, rfl, rfl, rfl, rfl, rfl, rfl, rfl, rfl⟩)
  rw [h9]
  dsimp only [except_ok_bind]
  obtain ⟨m10, h10, p10⟩ := tagStep_ok exif 0x9004 (fun m v => { m with dateTimeDigitized := some v }) m9
    (fun m v => ⟨rfl, rfl, rfl, rfl, rfl, rfl, rfl, rfl, rfl, rfl, rfl⟩)
  rw [h10]
  dsimp only [except_ok_bind]
  obtain ⟨m11, h11, p11⟩ := tagStep_ok exif 0x9204 (fun m v => { m with exposureBiasValue := some v }) m10
    (fun m v => ⟨rfl, rfl, rfl, rfl, rfl, rfl, rfl, rfl, rfl, rfl, rfl⟩)
  rw [h11]
  dsimp only [except_ok_bind]
  obtain ⟨m12, h12, p12⟩ := tagStep_ok exif 0x9207 (fun m v => { m with meteringMode := some v }) m11
    (fun m v => ⟨rfl, rfl, rfl, rfl, rfl, rfl, rfl, rfl, rfl, rfl, rfl⟩)
  rw [h12]
  dsimp only [except_ok_bind]
  obtain ⟨m13, h13, p13⟩ := tagStep_ok exif 0x9209 (fun m v => { m with flash := some v }) m12
    (fun m v => ⟨rfl, rfl, rfl, rfl, rfl, rfl, rfl, rfl, rfl, rfl, rfl⟩)
  rw [h13]
  dsimp only [except_ok_bind]
  obtain ⟨m14, h14, p14⟩ := tagStep_ok exif 0x920A (fun m v => { m with focalLength := some v }) m13
    (fun m v => ⟨rfl, rfl, rfl, rfl, rfl, rfl, rfl, rfl, rfl, rfl, rfl⟩)
  rw [h14]
  refine ⟨m14, rfl, ?_⟩
  exact nonTagFieldsEq_trans p14 (nonTagFieldsEq_trans p13 (nonTagFieldsEq_trans p12
    (nonTagFieldsEq_trans p11 (nonTagFieldsEq_trans p10 (nonTagFieldsEq_trans p9
    (nonTagFieldsEq_trans p8 (nonTagFieldsEq_trans p7 (nonTagFieldsEq_trans p6
    (nonTagFieldsEq_trans p5 (nonTagFieldsEq_trans p4 (nonTagFieldsEq_trans p3
    (nonTagFieldsEq_trans p2 p1))))))))))))

/-- Equality of the four date fields of `Metadata`. -/
def dateFieldsEq (a b : Metadata) : Prop :=
  a.dateCreated = b.dateCreated ∧ a.dateTimeOriginal = b.dateTimeOriginal
    ∧ a.dateTimeDigitized = b.dateTimeDigitized ∧ a.dateModified = b.dateModified

theorem dateFieldsEq_trans {a b c : Metadata} (h1 : dateFieldsEq a b)
    (h2 : dateFieldsEq b c) : dateFieldsEq a c :=
  ⟨h1.1.trans h2.1, h1.2.1.trans h2.2.1, h1.2.2.1.trans h2.2.2.1, h1.2.2.2.trans h2.2.2.2⟩

/-- `dateFieldsEq` against `m` for the carried metadata of either
constructor. -/
def dfPred (m : Metadata) : Except Metadata Metadata → Prop
  | .ok r => dateFieldsEq r m
  | .error r => dateFieldsEq r m

theorem dfPred_trans {m mp : Metadata} {x : Except Metadata Metadata}
    (h : dfPred mp x) (h2 : dateFieldsEq mp m) : dfPred m x := by
  cases x with
  | ok r => exact dateFieldsEq_trans h h2
  | error r => exact dateFieldsEq_trans h h2

set_option maxHeartbeats 1000000 in
/-- The GPS timestamp block assigns only `gpsTimestamp`/`gpsDateTime`:
whether it returns or throws, the date fields are those of its input. -/
theorem gpsTimeStep_dateFields (g : IfdMap) (m : Metadata) :
    dfPred m (gpsTimeStep g m) := by
  unfold gpsTimeStep
  cases ifdFind g 0x0007 with
  | none => exact ⟨rfl, rfl, rfl, rfl⟩
  | some e7 =>
    cases ifdFind g 0x001D with
    | none => exact ⟨rfl, rfl, rfl, rfl⟩
    | some e1d =>
      dsimp only
      cases e7.value with
      | undef => exact ⟨rfl, rfl, rfl, rfl⟩
      | nan => exact ⟨rfl, rfl, rfl, rfl⟩
      | num q => exact ⟨rfl, rfl, rfl, rfl⟩
      | str s => exact ⟨rfl, rfl, rfl, rfl⟩
      | arr tl =>
        dsimp only
        split
        · cases e1d.value with
          | undef => exact ⟨rfl, rfl, rfl, rfl⟩
          | nan => exact ⟨rfl, rfl, rfl, rfl⟩
          | num q => exact ⟨rfl, rfl, rfl, rfl⟩
          | arr l2 => exact ⟨rfl, rfl, rfl, rfl⟩
          | str ds =>
            dsimp only
            repeat' split
            all_goals exact ⟨rfl, rfl, rfl, rfl⟩
        · exact ⟨rfl, rfl, rfl, rfl⟩


/-- The GPS block assigns only GPS fields: whether it returns or throws,
the date fields are those of its input. -/
theorem gpsStep_dateFields (g : IfdMap) (m : Metadata) : dfPred m (gpsStep g m) := by
  unfold gpsStep
  split
  · cases ifdFind g 0x0001 with
    | none => exact ⟨rfl, rfl, rfl, rfl⟩
    | some e1 =>
      cases ifdFind g 0x0002 with
      | none => exact ⟨rfl, rfl, rfl, rfl⟩
      | some e2 =>
        cases ifdFind g 0x0003 with
        | none => exact ⟨rfl, rfl, rfl, rfl⟩
        | some e3 =>
          cases ifdFind g 0x0004 with
          | none => exact ⟨rfl, rfl, rfl, rfl⟩
          | some e4 =>
            dsimp only
            refine dfPred_trans (gpsTimeStep_dateFields g _) ?_
            cases ifdFind g 0x0006 with
            | none => exact ⟨rfl, rfl, rfl, rfl⟩
            | some e6 => exact ⟨rfl, rfl, rfl, rfl⟩
  · exact ⟨rfl, rfl, rfl, rfl⟩

/-- C9 as amended: for every extraction state with `hasExif = true`, the
`dateCreated` field is the JavaScript `||`-chain of `dateTimeOriginal`,
`dateTimeDigitized` and `dateModified`: the first TRUTHY value in that
order (a present but falsy value — empty string, zero — is skipped), and
the `dateModified` field's value (absent if unset) when none is truthy. -/
theorem date_created_precedence_C9 (ed : ExifData) (hex : ed.exifFound = true) :
    (processExifData ed).dateCreated
      = jsOr (processExifData ed).dateTimeOriginal
          (jsOr (processExifData ed).dateTimeDigitized (processExifData ed).dateModified) := by
  unfold processExifData
  rw [hex]
  dsimp only
  rw [if_neg (by simp)]
  obtain ⟨m14, h14, _⟩ := tagSteps_ok (ed.ifd0.getD []) (ed.exif.getD []) { hasExif := true }
  rw [h14]
  dsimp only [except_ok_bind]
  have hgp := gpsStep_dateFields (ed.gps.getD []) { m14 with dateCreated := jsOr m14.dateTimeOriginal (jsOr m14.dateTimeDigitized m14.dateModified) }
  cases hg : gpsStep (ed.gps.getD []) { m14 with dateCreated := jsOr m14.dateTimeOriginal (jsOr m14.dateTimeDigitized m14.dateModified) } with
  | ok r =>
    rw [hg] at hgp
    obtain ⟨q1, q2, q3, q4⟩ := hgp
    dsimp only
    rw [q1, q2, q3, q4]
  | error r =>
    rw [hg] at hgp
    obtain ⟨q1, q2, q3, q4⟩ := hgp
    dsimp only
    rw [q1, q2, q3, q4]

/-- Extraction state whose Exif sub-IFD has an original-capture-date tag
holding the empty ASCII string and a digitized-date tag holding `"D2"`. -/
def emptyDateEd : ExifData :=
  { exifFound := true,
    exif := some [⟨0x9003, 2, 1, .str ""⟩, ⟨0x9004, 2, 3, .str "D2"⟩] }

/-- C9 counterexample: tag `0x9003` is present with the (falsy) empty
ASCII string — so the "first present value" is `""` — yet `dateCreated`
receives the digitized date `"D2"`: the `||`-chain skips present-but-empty
values. -/
theorem date_created_precedence_C9_counterexample :
    (processExifData emptyDateEd).dateTimeOriginal = some (.str "")
    ∧ (processExifData emptyDateEd).dateCreated = some (.str "D2") := by
  constructor <;> decide

theorem date_created_precedence_C9_witness :
    (processExifData emptyDateEd).dateCreated
      = jsOr (processExifData emptyDateEd).dateTimeOriginal
          (jsOr (processExifData emptyDateEd).dateTimeDigitized
            (processExifData emptyDateEd).dateModified) :=
  date_created_precedence_C9 emptyDateEd rfl

/-- When the GPS map is non-empty but one of tags `0x0001`–`0x0004` is
absent, the GPS block only sets `hasGpsData`. -/
theorem gpsStep_gate_miss (g : IfdMap) (m : Metadata) (hne : g ≠ [])
    (hmiss : ifdFind g 0x0001 = none ∨ ifdFind g 0x0002 = none
      ∨ ifdFind g 0x0003 = none ∨ ifdFind g 0x0004 = none) :
    gpsStep g m = .ok { m with hasGpsData := some true } := by
  unfold gpsStep
  rw [if_pos hne]
  cases h1 : ifdFind g 0x0001 with
  | none => rfl
  | some e1 =>
    cases h2 : ifdFind g 0x0002 with
    | none => rfl
    | some e2 =>
      cases h3 : ifdFind g 0x0003 with
      | none => rfl
      | some e3 =>
        cases h4 : ifdFind g 0x0004 with
        | none => rfl
        | some e4 =>
          exfalso
          rcases hmiss with h | h | h | h
          · rw [h1] at h; cases h
          · rw [h2] at h; cases h
          · rw [h3] at h; cases h
          · rw [h4] at h; cases h

/-- C10: with `hasExif = true`, a non-empty GPS sub-IFD map missing at
least one of the four tags `0x0001` (latitude ref), `0x0002` (latitude),
`0x0003` (longitude ref), `0x0004` (longitude) yields `hasGpsData = true`
while none of `gpsLatitude`, `gpsLongitude`, `gpsAltitude`, `gpsDateTime`
is set — altitude and GPS timestamp extraction are gated on all four
coordinate tags even when tags `0x0006`, `0x0007` or `0x001D` are
present. -/
theorem gps_gating_C10 (ed : ExifData) (g : IfdMap) (hex : ed.exifFound = true)
    (hg : ed.gps = some g) (hne : g ≠ [])
    (hmiss : ifdFind g 0x0001 = none ∨ ifdFind g 0x0002 = none
      ∨ ifdFind g 0x0003 = none ∨ ifdFind g 0x0004 = none) :
    (processExifData ed).hasGpsData = some true
    ∧ (processExifData ed).gpsLatitude = none
    ∧ (processExifData ed).gpsLongitude = none
    ∧ (processExifData ed).gpsAltitude = none
    ∧ (processExifData ed).gpsDateTime = none := by
  unfold processExifData
  rw [hex]
  dsimp only
  rw [if_neg (by simp), hg]
  obtain ⟨m14, h14, p14⟩ := tagSteps_ok (ed.ifd0.getD []) (ed.exif.getD []) { hasExif := true }
  rw [h14]
  dsimp only [except_ok_bind, Option.getD]
  rw [gpsStep_gate_miss g _ hne hmiss]
  obtain ⟨-, -, q3, q4, q5, q6, -, q8, -, -, -⟩ := p14
  exact ⟨rfl, by simpa using q4, by simpa using q5, by simpa using q6, by simpa using q8⟩

/-- Extraction state whose GPS map has latitude, refs, altitude and
timestamp tags but no latitude-reference tag `0x0001`. -/
def gateMissEd : ExifData :=
  { exifFound := true,
    gps := some [⟨2, 5, 3, .arr [1, 2, 3]⟩, ⟨3, 2, 2, .str "E"⟩, ⟨4, 5, 3, .arr [4, 5, 6]⟩,
                 ⟨6, 5, 1, .num 10⟩, ⟨7, 5, 3, .arr [1, 2, 3]⟩,
                 ⟨0x1D, 2, 11, .str "2020:01:02"⟩] }

theorem gps_gating_C10_witness :
    (processExifData gateMissEd).hasGpsData = some true
    ∧ (processExifData gateMissEd).gpsLatitude = none
    ∧ (processExifData gateMissEd).gpsLongitude = none
    ∧ (processExifData gateMissEd).gpsAltitude = none
    ∧ (processExifData gateMissEd).gpsDateTime = none :=
  gps_gating_C10 gateMissEd
    [⟨2, 5, 3, .arr [1, 2, 3]⟩, ⟨3, 2, 2, .str "E"⟩, ⟨4, 5, 3, .arr [4, 5, 6]⟩,
     ⟨6, 5, 1, .num 10⟩, ⟨7, 5, 3, .arr [1, 2, 3]⟩, ⟨0x1D, 2, 11, .str "2020:01:02"⟩]
    rfl rfl (by decide) (Or.inl (by decide))

/-! ## Byte-order equivalence: a logical tag language and its encoders -/

theorem readChars_encode (l : List Char) :
    ∀ (pre post : DataView), (∀ c ∈ l, 0 < c.toNat ∧ c.toNat < 256) →
      readCharsFromView (pre ++ (l.map Char.toNat ++ post)) pre.length l.length
        = .ok (String.mk l) := by
  induction l with
  | nil => intro pre post _; rfl
  | cons c l ih =>
    intro pre post hl
    obtain ⟨hc0, hc256⟩ := hl c (by simp)
    simp only [List.map_cons, List.length_cons]
    show readCharsFromView (pre ++ (c.toNat :: (l.map Char.toNat ++ post))) pre.length (l.length + 1) = _
    unfold readCharsFromView
    have hr : getUint8 (pre ++ (c.toNat :: (l.map Char.toNat ++ post))) pre.length
        = .ok c.toNat := by
      have h := getUint8_append pre (c.toNat :: (l.map Char.toNat ++ post)) 0
      rw [Nat.add_zero] at h
      rw [h, getUint8_zero]
    rw [hr]
    dsimp only [except_ok_bind]
    rw [if_neg (by omega)]
    have hrec : readCharsFromView (pre ++ (c.toNat :: (l.map Char.toNat ++ post)))
        (pre.length + 1) l.length = .ok (String.mk l) := by
      have hshape : pre ++ (c.toNat :: (l.map Char.toNat ++ post))
          = (pre ++ [c.toNat]) ++ (l.map Char.toNat ++ post) := by simp
      have hlen : (pre ++ [c.toNat]).length = pre.length + 1 := by simp
      rw [hshape, ← hlen]
      exact ih (pre ++ [c.toNat]) post (fun x hx => hl x (by simp [hx]))
    rw [hrec]
    dsimp only [except_ok_bind, except_pure]
    rw [Char.ofNat_toNat c]
    rfl

theorem encode16_length (le : Bool) (n : Nat) : (encode16 le n).length = 2 := by
  cases le <;> rfl

theorem string_mk_data (s : String) : String.mk s.data = s := by
  cases s
  rfl
theorem getUint32_ok_of_len (pre l post : DataView) (le : Bool) (h : l.length = 4) :
    ∃ v, getUint32 (pre ++ (l ++ post)) pre.length le = .ok v := by
  match l, h with
  | [a, b, c, d], _ =>
    unfold getUint32
    have h0 := getUint8_append pre ([a, b, c, d] ++ post) 0
    have h1 := getUint8_append pre ([a, b, c, d] ++ post) 1
    have h2 := getUint8_append pre ([a, b, c, d] ++ post) 2
    have h3 := getUint8_append pre ([a, b, c, d] ++ post) 3
    rw [Nat.add_zero] at h0
    rw [show [a, b, c, d] ++ post = a :: b :: c :: d :: post from rfl] at h0 h1 h2 h3 ⊢
    rw [h0, getUint8_zero, h1, getUint8_one, h2, getUint8_two, h3, getUint8_three]
    exact ⟨_, rfl⟩



/-- A logical tag value: scalars of the byte, short, long, undefined and
signed-long types, ASCII strings of any length, and short / rational /
signed-rational arrays.  Values wider than 4 bytes are stored out of line
in a data area behind the entry table. -/
inductive LogVal where
  | byteV (n : Nat) : LogVal
  | asciiV (s : String) : LogVal
  | shortV (n : Nat) : LogVal
  | longV (n : Nat) : LogVal
  | undefV (n : Nat) : LogVal
  | slongV (i : Int) : LogVal
  | shortsV (ns : List Nat) : LogVal
  | ratV (ps : List (Nat × Nat)) : LogVal
  | sratV (ps : List (Int × Int)) : LogVal
deriving DecidableEq, Repr

/-- The EXIF type code a writer declares for the value. -/
def LogVal.typeCode : LogVal → Nat
  | byteV _ => 1
  | asciiV _ => 2
  | shortV _ => 3
  | longV _ => 4
  | undefV _ => 7
  | slongV _ => 9
  | shortsV _ => 3
  | ratV _ => 5
  | sratV _ => 10

/-- The declared count. -/
def LogVal.countOf : LogVal → Nat
  | asciiV s => s.length
  | shortsV ns => ns.length
  | ratV ps => ps.length
  | sratV ps => ps.length
  | _ => 1

/-- The per-value byte width of the declared type (`valueBytes` of the
reader). -/
def LogVal.width : LogVal → Nat
  | byteV _ => 1
  | asciiV _ => 1
  | shortV _ => 2
  | longV _ => 4
  | undefV _ => 1
  | slongV _ => 4
  | shortsV _ => 2
  | ratV _ => 8
  | sratV _ => 8

/-- Whether the value fits in the 4-byte entry field (the reader's
`numValues * valueBytes ≤ 4` test). -/
def LogVal.isInline (v : LogVal) : Bool := v.countOf * v.width ≤ 4

/-- Representability of the logical value in its type. -/
def LogVal.wf : LogVal → Prop
  | byteV n => n < 256
  | asciiV s => s.length < 4294967296 ∧ ∀ c ∈ s.data, 0 < c.toNat ∧ c.toNat < 256
  | shortV n => n < 65536
  | longV n => n < 4294967296
  | undefV n => n < 256
  | slongV i => -2147483648 ≤ i ∧ i < 2147483648
  | shortsV ns => ns ≠ [] ∧ ns.length < 4294967296 ∧ ∀ n ∈ ns, n < 65536
  | ratV ps => ps ≠ [] ∧ ps.length < 4294967296 ∧
      ∀ p ∈ ps, p.1 < 4294967296 ∧ p.2 < 4294967296
  | sratV ps => ps ≠ [] ∧ ps.length < 4294967296 ∧
      ∀ p ∈ ps, (-2147483648 ≤ p.1 ∧ p.1 < 2147483648) ∧
        (-2147483648 ≤ p.2 ∧ p.2 < 2147483648)

/-- The quotient an unsigned rational pair decodes to (`0` on a zero
denominator). -/
def uratio (p : Nat × Nat) : ℚ := if p.2 = 0 then 0 else (p.1 : ℚ) / (p.2 : ℚ)

/-- The quotient a signed rational pair decodes to (`0` on a zero
denominator). -/
def sratio (p : Int × Int) : ℚ := if p.2 = 0 then 0 else (p.1 : ℚ) / (p.2 : ℚ)

/-- The `JsVal` the decoder recovers for the value. -/
def LogVal.decoded : LogVal → JsVal
  | byteV n => .num n
  | asciiV s => .str (jsTrim s)
  | shortV n => .num n
  | longV n => .num n
  | undefV n => .num n
  | slongV i => .num i
  | shortsV ns => if ns.length = 1 then .num (ns.getD 0 0) else .arr (ns.map fun n : Nat => (n : ℚ))
  | ratV ps => if ps.length = 1 then .num (uratio (ps.getD 0 (0, 0))) else .arr (ps.map uratio)
  | sratV ps => if ps.length = 1 then .num (sratio (ps.getD 0 (0, 0))) else .arr (ps.map sratio)

/-- The 4-byte inline value field a writer emits for an inline value in
the given byte order (a placeholder for the always-out-of-line rational
kinds). -/
def LogVal.inlineBytes (le : Bool) : LogVal → List Nat
  | byteV n => [n, 0, 0, 0]
  | asciiV s => s.data.map Char.toNat ++ List.replicate (4 - s.length) 0
  | shortV n => encode16 le n ++ [0, 0]
  | longV n => encode32 le n
  | undefV n => [n, 0, 0, 0]
  | slongV i => encodeI32 le i
  | shortsV ns => (ns.map (encode16 le)).flatten ++ List.replicate (4 - 2 * ns.length) 0
  | ratV _ => [0, 0, 0, 0]
  | sratV _ => [0, 0, 0, 0]

/-- The out-of-line payload a writer places in the data area. -/
def LogVal.rawBytes (le : Bool) : LogVal → List Nat
  | asciiV s => s.data.map Char.toNat
  | shortsV ns => (ns.map (encode16 le)).flatten
  | ratV ps => (ps.map (fun p => encode32 le p.1 ++ encode32 le p.2)).flatten
  | sratV ps => (ps.map (fun p => encodeI32 le p.1 ++ encodeI32 le p.2)).flatten
  | _ => []

/-- The bytes the value contributes to the data area (empty when inline). -/
def LogVal.dataBytes (le : Bool) (v : LogVal) : List Nat :=
  if v.isInline then [] else v.rawBytes le

/-- The byte-order-independent length of `dataBytes`. -/
def LogVal.dataLen (v : LogVal) : Nat :=
  if v.isInline then 0 else v.countOf * v.width

/-- The 4-byte entry field: the inline value, or the absolute offset of
the out-of-line data. -/
def LogVal.fieldBytes (le : Bool) (off : Nat) (v : LogVal) : List Nat :=
  if v.isInline then v.inlineBytes le else encode32 le off

/-- A logical IFD entry: tag and value. -/
abbrev LogEntry := Nat × LogVal

/-- Tag representable in 16 bits and value representable in its type. -/
def wfEntry (e : LogEntry) : Prop := e.1 < 65536 ∧ e.2.wf

/-- The 12 bytes of one IFD entry in the given byte order, given the data
offset assigned to the entry. -/
def encodeEntry (le : Bool) (off : Nat) (e : LogEntry) : List Nat :=
  encode16 le e.1 ++ encode16 le e.2.typeCode ++ encode32 le e.2.countOf
    ++ e.2.fieldBytes le off

/-- Packs the entries and their data area, threading the running data
offset: the first component is the entry table, the second the data
area. -/
def encodeEntriesAux (le : Bool) : Nat → List LogEntry → List Nat × List Nat
  | _, [] => ([], [])
  | off, e :: rest =>
    let p := encodeEntriesAux le (off + e.2.dataLen) rest
    (encodeEntry le off e ++ p.1, e.2.dataBytes le ++ p.2)

/-- Total size of the data area of an IFD. -/
def ifdDataLen (es : List LogEntry) : Nat := (es.map (fun e => e.2.dataLen)).sum

/-- A whole IFD in the given byte order, laid out at offset `pos` from the
TIFF base: entry count, entry table, then the data area, with each
out-of-line entry's field holding the offset of its data from the TIFF
base. -/
def encodeIfdAt (le : Bool) (pos : Nat) (es : List LogEntry) : DataView :=
  encode16 le es.length
    ++ ((encodeEntriesAux le (pos + 2 + 12 * es.length) es).1
      ++ (encodeEntriesAux le (pos + 2 + 12 * es.length) es).2)

/-- The `IfdEntry` the walker builds for a logical entry. -/
def logicalEntry (e : LogEntry) : IfdEntry :=
  ⟨e.1, e.2.typeCode, e.2.countOf, e.2.decoded⟩

/-- The `IfdMap` the walker builds for a logical IFD. -/
def logicalIfd (es : List LogEntry) : IfdMap :=
  es.foldl (fun m e => ifdInsert m (logicalEntry e)) []

theorem flatten_map_length {α : Type} (f : α → List Nat) (w : Nat)
    (hw : ∀ a, (f a).length = w) :
    ∀ l : List α, ((l.map f).flatten).length = w * l.length := by
  intro l
  induction l with
  | nil => simp
  | cons a l ih =>
    simp only [List.map_cons, List.flatten_cons, List.length_append, hw, ih,
      List.length_cons]
    ring

theorem inlineBytes_length (le : Bool) (v : LogVal) (h : v.isInline = true) :
    (v.inlineBytes le).length = 4 := by
  cases v with
  | byteV n => rfl
  | undefV n => rfl
  | shortV n => cases le <;> rfl
  | longV n => cases le <;> rfl
  | slongV i => unfold LogVal.inlineBytes encodeI32; cases le <;> rfl
  | asciiV s =>
    have h4 : s.length ≤ 4 := by
      simpa [LogVal.isInline, LogVal.countOf, LogVal.width] using h
    simp [LogVal.inlineBytes]
    omega
  | shortsV ns =>
    have h4 : ns.length * 2 ≤ 4 := by
      simpa [LogVal.isInline, LogVal.countOf, LogVal.width] using h
    simp only [LogVal.inlineBytes, List.length_append,
      flatten_map_length (encode16 le) 2 (fun a => encode16_length le a),
      List.length_replicate]
    omega
  | ratV ps => rfl
  | sratV ps => rfl

theorem dataBytes_length (le : Bool) (v : LogVal) :
    (v.dataBytes le).length = v.dataLen := by
  unfold LogVal.dataBytes LogVal.dataLen
  cases h : v.isInline with
  | true => simp
  | false =>
    simp only [Bool.false_eq_true, if_false]
    cases v with
    | byteV n => simp [LogVal.isInline, LogVal.countOf, LogVal.width] at h
    | shortV n => simp [LogVal.isInline, LogVal.countOf, LogVal.width] at h
    | longV n => simp [LogVal.isInline, LogVal.countOf, LogVal.width] at h
    | undefV n => simp [LogVal.isInline, LogVal.countOf, LogVal.width] at h
    | slongV i => simp [LogVal.isInline, LogVal.countOf, LogVal.width] at h
    | asciiV s => simp [LogVal.rawBytes, LogVal.countOf, LogVal.width]
    | shortsV ns =>
      simp only [LogVal.rawBytes, LogVal.countOf, LogVal.width,
        flatten_map_length (encode16 le) 2 (fun a => encode16_length le a)]
      ring
    | ratV ps =>
      simp only [LogVal.rawBytes, LogVal.countOf, LogVal.width,
        flatten_map_length (fun p : Nat × Nat => encode32 le p.1 ++ encode32 le p.2) 8
          (fun a => by simp [encode32_length])]
      ring
    | sratV ps =>
      simp only [LogVal.rawBytes, LogVal.countOf, LogVal.width,
        flatten_map_length (fun p : Int × Int => encodeI32 le p.1 ++ encodeI32 le p.2) 8
          (fun a => by simp [encodeI32_length])]
      ring

theorem fieldBytes_length (le : Bool) (off : Nat) (v : LogVal) :
    (v.fieldBytes le off).length = 4 := by
  unfold LogVal.fieldBytes
  cases h : v.isInline with
  | true => simp [inlineBytes_length le v h]
  | false => simp [encode32_length]

theorem encodeEntry_length (le : Bool) (off : Nat) (e : LogEntry) :
    (encodeEntry le off e).length = 12 := by
  simp [encodeEntry, List.length_append, encode16_length, encode32_length,
    fieldBytes_length]

theorem encodeEntriesAux_cons (le : Bool) (off : Nat) (e : LogEntry)
    (es : List LogEntry) :
    encodeEntriesAux le off (e :: es)
      = (encodeEntry le off e ++ (encodeEntriesAux le (off + e.2.dataLen) es).1,
         e.2.dataBytes le ++ (encodeEntriesAux le (off + e.2.dataLen) es).2) := rfl

theorem ifdDataLen_cons (e : LogEntry) (es : List LogEntry) :
    ifdDataLen (e :: es) = e.2.dataLen + ifdDataLen es := by
  simp [ifdDataLen]

theorem ifdDataLen_append (xs ys : List LogEntry) :
    ifdDataLen (xs ++ ys) = ifdDataLen xs + ifdDataLen ys := by
  simp [ifdDataLen]

theorem encodeEntriesAux_append (le : Bool) :
    ∀ (xs ys : List LogEntry) (off : Nat),
      encodeEntriesAux le off (xs ++ ys)
        = ((encodeEntriesAux le off xs).1
            ++ (encodeEntriesAux le (off + ifdDataLen xs) ys).1,
           (encodeEntriesAux le off xs).2
            ++ (encodeEntriesAux le (off + ifdDataLen xs) ys).2) := by
  intro xs
  induction xs with
  | nil =>
    intro ys off
    simp [encodeEntriesAux, ifdDataLen]
  | cons e xs ih =>
    intro ys off
    rw [List.cons_append, encodeEntriesAux_cons, ih ys (off + e.2.dataLen),
      encodeEntriesAux_cons, ifdDataLen_cons]
    simp [List.append_assoc, Nat.add_assoc]

theorem encodeEntriesAux_fst_length (le : Bool) :
    ∀ (es : List LogEntry) (off : Nat),
      ((encodeEntriesAux le off es).1).length = 12 * es.length := by
  intro es
  induction es with
  | nil => intro off; rfl
  | cons e es ih =>
    intro off
    rw [encodeEntriesAux_cons]
    simp only [List.length_append, encodeEntry_length, ih, List.length_cons]
    ring

theorem encodeEntriesAux_snd_length (le : Bool) :
    ∀ (es : List LogEntry) (off : Nat),
      ((encodeEntriesAux le off es).2).length = ifdDataLen es := by
  intro es
  induction es with
  | nil => intro off; rfl
  | cons e es ih =>
    intro off
    rw [encodeEntriesAux_cons, ifdDataLen_cons]
    simp only [List.length_append, dataBytes_length, ih]

theorem typeCode_lt (v : LogVal) : v.typeCode < 65536 := by
  cases v <;> simp [LogVal.typeCode]

theorem countOf_lt (v : LogVal) (h : v.wf) : v.countOf < 4294967296 := by
  cases v with
  | asciiV s => exact h.1
  | shortsV ns => exact h.2.1
  | ratV ps => exact h.2.1
  | sratV ps => exact h.2.1
  | byteV n => simp [LogVal.countOf]
  | shortV n => simp [LogVal.countOf]
  | longV n => simp [LogVal.countOf]
  | undefV n => simp [LogVal.countOf]
  | slongV i => simp [LogVal.countOf]

theorem readNumArray_encoded {α : Type} (view : DataView) (getValue : Nat → Except Unit ℚ)
    (enc : α → List Nat) (f : α → ℚ) (w : Nat) (WF : α → Prop)
    (hw : ∀ a, (enc a).length = w)
    (hread : ∀ (Q R : DataView) (a : α), WF a → view = Q ++ (enc a ++ R) →
      getValue Q.length = .ok (f a)) :
    ∀ (l : List α) (Q R : DataView) (base i : Nat), (∀ a ∈ l, WF a) →
      view = Q ++ ((l.map enc).flatten ++ R) → Q.length = base + i * w →
      readNumArray view getValue base w i l.length = .ok (l.map f) := by
  intro l
  induction l with
  | nil => intro Q R base i _ _ _; rfl
  | cons a l ih =>
    intro Q R base i hWF hview hQ
    simp only [List.length_cons, List.map_cons]
    unfold readNumArray
    have hval : getValue (base + i * w) = .ok (f a) := by
      rw [← hQ]
      exact hread Q ((l.map enc).flatten ++ R) a (hWF a (by simp))
        (by rw [hview]; simp [List.append_assoc])
    rw [hval]
    dsimp only [except_ok_bind]
    have hrec : readNumArray view getValue base w (i + 1) l.length = .ok (l.map f) := by
      refine ih (Q ++ enc a) R base (i + 1) (fun x hx => hWF x (by simp [hx])) ?_ ?_
      · rw [hview]; simp [List.append_assoc]
      · rw [List.length_append, hQ, hw a]; ring
    rw [hrec]
    rfl

theorem readNumArray_shorts (le : Bool) (view : DataView) (ns : List Nat)
    (Q R : DataView) (base i : Nat)
    (hns : ∀ n ∈ ns, n < 65536)
    (hview : view = Q ++ ((ns.map (encode16 le)).flatten ++ R))
    (hQ : Q.length = base + i * 2) :
    readNumArray view (fun off => do pure (((← getUint16 view off le) : ℚ)))
        base 2 i ns.length
      = .ok (ns.map (fun n : Nat => (n : ℚ))) := by
  refine readNumArray_encoded view _ (encode16 le) (fun n : Nat => (n : ℚ)) 2
    (fun n => n < 65536) (fun a => encode16_length le a) ?_ ns Q R base i hns hview hQ
  intro Q' R' a ha hv
  show (do pure (((← getUint16 view Q'.length le) : ℚ)) : Except Unit ℚ) = .ok ((a : ℚ))
  rw [hv, getUint16_encode le a Q' R' ha]
  rfl

theorem readNumArray_rats (le : Bool) (view : DataView) (ps : List (Nat × Nat))
    (Q R : DataView) (base i : Nat)
    (hps : ∀ p ∈ ps, p.1 < 4294967296 ∧ p.2 < 4294967296)
    (hview : view = Q
      ++ ((ps.map (fun p : Nat × Nat => encode32 le p.1 ++ encode32 le p.2)).flatten ++ R))
    (hQ : Q.length = base + i * 8) :
    readNumArray view (fun off => do
        let n ← getUint32 view off le
        let d ← getUint32 view (off + 4) le
        pure (if d = 0 then 0 else (n : ℚ) / (d : ℚ))) base 8 i ps.length
      = .ok (ps.map uratio) := by
  refine readNumArray_encoded view _
    (fun p : Nat × Nat => encode32 le p.1 ++ encode32 le p.2) uratio 8
    (fun p => p.1 < 4294967296 ∧ p.2 < 4294967296)
    (fun a => by simp [encode32_length]) ?_ ps Q R base i hps hview hQ
  intro Q' R' p hp hv
  show (do
      let n ← getUint32 view Q'.length le
      let d ← getUint32 view (Q'.length + 4) le
      pure (if d = 0 then 0 else (n : ℚ) / (d : ℚ)) : Except Unit ℚ) = .ok (uratio p)
  have h1 : getUint32 view Q'.length le = .ok p.1 := by
    rw [hv, show Q' ++ ((encode32 le p.1 ++ encode32 le p.2) ++ R')
        = Q' ++ (encode32 le p.1 ++ (encode32 le p.2 ++ R')) from by
      simp [List.append_assoc]]
    exact getUint32_encode le p.1 Q' _ hp.1
  have h2 : getUint32 view (Q'.length + 4) le = .ok p.2 := by
    rw [hv, show Q' ++ ((encode32 le p.1 ++ encode32 le p.2) ++ R')
        = (Q' ++ encode32 le p.1) ++ (encode32 le p.2 ++ R') from by
      simp [List.append_assoc],
      show Q'.length + 4 = (Q' ++ encode32 le p.1).length from by
        simp [encode32_length]]
    exact getUint32_encode le p.2 _ _ hp.2
  rw [h1]
  dsimp only [except_ok_bind]
  rw [h2]
  dsimp only [except_ok_bind, except_pure]
  rfl

theorem readNumArray_srats (le : Bool) (view : DataView) (ps : List (Int × Int))
    (Q R : DataView) (base i : Nat)
    (hps : ∀ p ∈ ps, (-2147483648 ≤ p.1 ∧ p.1 < 2147483648)
      ∧ (-2147483648 ≤ p.2 ∧ p.2 < 2147483648))
    (hview : view = Q
      ++ ((ps.map (fun p : Int × Int => encodeI32 le p.1 ++ encodeI32 le p.2)).flatten ++ R))
    (hQ : Q.length = base + i * 8) :
    readNumArray view (fun off => do
        let n ← getInt32 view off le
        let d ← getInt32 view (off + 4) le
        pure (if d = 0 then 0 else (n : ℚ) / (d : ℚ))) base 8 i ps.length
      = .ok (ps.map sratio) := by
  refine readNumArray_encoded view _
    (fun p : Int × Int => encodeI32 le p.1 ++ encodeI32 le p.2) sratio 8
    (fun p => (-2147483648 ≤ p.1 ∧ p.1 < 2147483648)
      ∧ (-2147483648 ≤ p.2 ∧ p.2 < 2147483648))
    (fun a => by simp [encodeI32_length]) ?_ ps Q R base i hps hview hQ
  intro Q' R' p hp hv
  show (do
      let n ← getInt32 view Q'.length le
      let d ← getInt32 view (Q'.length + 4) le
      pure (if d = 0 then 0 else (n : ℚ) / (d : ℚ)) : Except Unit ℚ) = .ok (sratio p)
  have h1 : getInt32 view Q'.length le = .ok p.1 := by
    rw [hv, show Q' ++ ((encodeI32 le p.1 ++ encodeI32 le p.2) ++ R')
        = Q' ++ (encodeI32 le p.1 ++ (encodeI32 le p.2 ++ R')) from by
      simp [List.append_assoc]]
    exact getInt32_encode le p.1 Q' _ hp.1.1 hp.1.2
  have h2 : getInt32 view (Q'.length + 4) le = .ok p.2 := by
    rw [hv, show Q' ++ ((encodeI32 le p.1 ++ encodeI32 le p.2) ++ R')
        = (Q' ++ encodeI32 le p.1) ++ (encodeI32 le p.2 ++ R') from by
      simp [List.append_assoc],
      show Q'.length + 4 = (Q' ++ encodeI32 le p.1).length from by
        simp [encodeI32_length]]
    exact getInt32_encode le p.2 _ _ hp.2.1 hp.2.2
  rw [h1]
  dsimp only [except_ok_bind]
  rw [h2]
  dsimp only [except_ok_bind, except_pure]
  rfl

theorem readTagValue_logical (le : Bool) (view : DataView) (v : LogVal)
    (off evo : Nat) (hwf : v.wf)
    (hin : v.isInline = true → ∃ P S, view = P ++ (v.inlineBytes le ++ S) ∧ P.length = evo)
    (hout : v.isInline = false → ∃ Q R, view = Q ++ (v.rawBytes le ++ R) ∧ Q.length = off) :
    readTagValue view v.typeCode v.countOf off 0 evo le = .ok v.decoded := by
  cases v with
  | byteV n =>
    obtain ⟨P, S, hview, hP⟩ := hin (by rfl)
    unfold readTagValue
    dsimp only [LogVal.typeCode, LogVal.countOf, LogVal.decoded]
    simp only [show ((1 : Nat) * 1 ≤ 4) from by omega, if_true,
      show ((1 : Nat) ≠ 2) from by omega, if_false, if_neg, if_pos]
    rw [hview, ← hP]
    dsimp only [LogVal.inlineBytes]
    have h := getUint8_append P ([n, 0, 0, 0] ++ S) 0
    rw [Nat.add_zero] at h
    have h0 : getUint8 ([n, 0, 0, 0] ++ S) 0 = .ok n := by
      rw [List.cons_append]
      exact getUint8_zero n _
    rw [h, h0]
    rfl
  | undefV n =>
    obtain ⟨P, S, hview, hP⟩ := hin (by rfl)
    unfold readTagValue
    dsimp only [LogVal.typeCode, LogVal.countOf, LogVal.decoded]
    simp only [show ((1 : Nat) * 1 ≤ 4) from by omega, if_true,
      show ((7 : Nat) ≠ 2) from by omega, if_false, if_neg, if_pos]
    rw [hview, ← hP]
    dsimp only [LogVal.inlineBytes]
    have h := getUint8_append P ([n, 0, 0, 0] ++ S) 0
    rw [Nat.add_zero] at h
    have h0 : getUint8 ([n, 0, 0, 0] ++ S) 0 = .ok n := by
      rw [List.cons_append]
      exact getUint8_zero n _
    rw [h, h0]
    rfl
  | shortV n =>
    obtain ⟨P, S, hview, hP⟩ := hin (by rfl)
    unfold readTagValue
    dsimp only [LogVal.typeCode, LogVal.countOf, LogVal.decoded]
    simp only [show ((1 : Nat) * 2 ≤ 4) from by omega, if_true,
      show ((3 : Nat) ≠ 2) from by omega, if_false, if_neg, if_pos]
    rw [hview, ← hP]
    dsimp only [LogVal.inlineBytes]
    have hv2 : encode16 le n ++ [0, 0] ++ S = encode16 le n ++ ([0, 0] ++ S) := by
      simp [List.append_assoc]
    rw [hv2, getUint16_encode le n P _ hwf]
    rfl
  | longV n =>
    obtain ⟨P, S, hview, hP⟩ := hin (by rfl)
    unfold readTagValue
    dsimp only [LogVal.typeCode, LogVal.countOf, LogVal.decoded]
    simp only [show ((1 : Nat) * 4 ≤ 4) from by omega, if_true,
      show ((4 : Nat) ≠ 2) from by omega, if_false, if_neg, if_pos]
    rw [hview, ← hP]
    dsimp only [LogVal.inlineBytes]
    rw [getUint32_encode le n P S hwf]
    rfl
  | slongV i =>
    obtain ⟨P, S, hview, hP⟩ := hin (by rfl)
    unfold readTagValue
    dsimp only [LogVal.typeCode, LogVal.countOf, LogVal.decoded]
    simp only [show ((1 : Nat) * 4 ≤ 4) from by omega, if_true,
      show ((9 : Nat) ≠ 2) from by omega, if_false, if_neg, if_pos]
    rw [hview, ← hP]
    dsimp only [LogVal.inlineBytes]
    rw [getInt32_encode le i P S hwf.1 hwf.2]
    rfl
  | asciiV s =>
    obtain ⟨hslen, hsc⟩ := hwf
    by_cases h4 : s.length ≤ 4
    · obtain ⟨P, S, hview, hP⟩ := hin (by
        simp [LogVal.isInline, LogVal.countOf, LogVal.width]
        omega)
      unfold readTagValue
      dsimp only [LogVal.typeCode, LogVal.countOf, LogVal.decoded]
      simp only [show ((s.length : Nat) * 1 ≤ 4) from by omega, if_true,
        show ((2 : Nat) = 2) from rfl, if_pos]
      rw [hview, ← hP]
      dsimp only [LogVal.inlineBytes]
      have hv2 : s.data.map Char.toNat ++ List.replicate (4 - s.length) 0 ++ S
          = s.data.map Char.toNat ++ (List.replicate (4 - s.length) 0 ++ S) := by
        simp [List.append_assoc]
      rw [hv2]
      have hr := readChars_encode s.data P (List.replicate (4 - s.length) 0 ++ S) hsc
      rw [show s.data.length = s.length from rfl] at hr
      rw [hr]
      dsimp only [except_ok_bind, except_pure]
    · obtain ⟨Q, R, hview, hQ⟩ := hout (by
        simp [LogVal.isInline, LogVal.countOf, LogVal.width]
        omega)
      unfold readTagValue
      dsimp only [LogVal.typeCode, LogVal.countOf, LogVal.decoded]
      simp only [show ¬ ((s.length : Nat) * 1 ≤ 4) from by omega, if_false,
        show ((2 : Nat) = 2) from rfl, if_pos, Nat.zero_add]
      rw [hview, ← hQ]
      dsimp only [LogVal.rawBytes]
      have hr := readChars_encode s.data Q R hsc
      rw [show s.data.length = s.length from rfl] at hr
      rw [hr]
      dsimp only [except_ok_bind, except_pure]
  | shortsV ns =>
    obtain ⟨hne, hlen2, hns⟩ := hwf
    have hpos : 0 < ns.length := List.length_pos.mpr hne
    by_cases hn1 : ns.length = 1
    · obtain ⟨a, rfl⟩ := List.length_eq_one.mp hn1
      obtain ⟨P, S, hview, hP⟩ := hin (by rfl)
      unfold readTagValue
      dsimp only [LogVal.typeCode, LogVal.countOf, LogVal.decoded]
      simp only [List.length_singleton,
        show ((1 : Nat) * 2 ≤ 4) from by omega, if_true,
        show ((3 : Nat) ≠ 2) from by omega, if_false, if_neg, if_pos]
      rw [hview, ← hP]
      have hv2 : LogVal.inlineBytes le (LogVal.shortsV [a]) ++ S
          = encode16 le a ++ ([0, 0] ++ S) := by
        simp [LogVal.inlineBytes, List.append_assoc, List.replicate]
      rw [hv2, getUint16_encode le a P _ (hns a (by simp))]
      rfl
    · by_cases hinl2 : ns.length * 2 ≤ 4
      · obtain ⟨P, S, hview, hP⟩ := hin (by
          simp [LogVal.isInline, LogVal.countOf, LogVal.width]
          omega)
        unfold readTagValue
        dsimp only [LogVal.typeCode, LogVal.countOf, LogVal.decoded]
        simp only [show (ns.length * 2 ≤ 4) from hinl2, if_true,
          show ((3 : Nat) ≠ 2) from by omega, if_false, hn1]
        rw [readNumArray_shorts le view ns P (List.replicate (4 - 2 * ns.length) 0 ++ S)
          evo 0 hns
          (by rw [hview]; simp [LogVal.inlineBytes, List.append_assoc])
          (by omega)]
        dsimp only [except_ok_bind, except_pure]
      · obtain ⟨Q, R, hview, hQ⟩ := hout (by
          simp [LogVal.isInline, LogVal.countOf, LogVal.width]
          omega)
        unfold readTagValue
        dsimp only [LogVal.typeCode, LogVal.countOf, LogVal.decoded]
        simp only [show ¬ (ns.length * 2 ≤ 4) from hinl2, if_false,
          show ((3 : Nat) ≠ 2) from by omega, hn1, Nat.zero_add]
        rw [readNumArray_shorts le view ns Q R off 0 hns
          (by rw [hview]; rfl) (by omega)]
        dsimp only [except_ok_bind, except_pure]
  | ratV ps =>
    obtain ⟨hne, hlenp, hps⟩ := hwf
    have hpos : 0 < ps.length := List.length_pos.mpr hne
    have hninl : (LogVal.ratV ps).isInline = false := by
      simp [LogVal.isInline, LogVal.countOf, LogVal.width]
      omega
    obtain ⟨Q, R, hview, hQ⟩ := hout hninl
    by_cases hn1 : ps.length = 1
    · obtain ⟨p, rfl⟩ := List.length_eq_one.mp hn1
      have hv2 : view = Q ++ (encode32 le p.1 ++ (encode32 le p.2 ++ R)) := by
        rw [hview]; simp [LogVal.rawBytes, List.append_assoc]
      have h := readTagValue_rational le Q R p.1 p.2 evo
        (hps p (by simp)).1 (hps p (by simp)).2
      rw [← hv2, hQ] at h
      dsimp only [LogVal.typeCode, LogVal.countOf, LogVal.decoded]
      simp only [List.length_singleton, if_pos rfl]
      rw [h]
      rfl
    · unfold readTagValue
      dsimp only [LogVal.typeCode, LogVal.countOf, LogVal.decoded]
      simp only [show ¬ (ps.length * 8 ≤ 4) from by omega, if_false,
        show ((5 : Nat) ≠ 2) from by omega, hn1, Nat.zero_add]
      rw [readNumArray_rats le view ps Q R off 0 hps
        (by rw [hview]; rfl) (by omega)]
      dsimp only [except_ok_bind, except_pure]
  | sratV ps =>
    obtain ⟨hne, hlenp, hps⟩ := hwf
    have hpos : 0 < ps.length := List.length_pos.mpr hne
    have hninl : (LogVal.sratV ps).isInline = false := by
      simp [LogVal.isInline, LogVal.countOf, LogVal.width]
      omega
    obtain ⟨Q, R, hview, hQ⟩ := hout hninl
    by_cases hn1 : ps.length = 1
    · obtain ⟨p, rfl⟩ := List.length_eq_one.mp hn1
      have hv2 : view = Q ++ (encodeI32 le p.1 ++ (encodeI32 le p.2 ++ R)) := by
        rw [hview]; simp [LogVal.rawBytes, List.append_assoc]
      have h := readTagValue_srational le Q R p.1 p.2 evo
        (hps p (by simp)).1.1 (hps p (by simp)).1.2
        (hps p (by simp)).2.1 (hps p (by simp)).2.2
      rw [← hv2, hQ] at h
      dsimp only [LogVal.typeCode, LogVal.countOf, LogVal.decoded]
      simp only [List.length_singleton, if_pos rfl]
      rw [h]
      rfl
    · unfold readTagValue
      dsimp only [LogVal.typeCode, LogVal.countOf, LogVal.decoded]
      simp only [show ¬ (ps.length * 8 ≤ 4) from by omega, if_false,
        show ((10 : Nat) ≠ 2) from by omega, hn1, Nat.zero_add]
      rw [readNumArray_srats le view ps Q R off 0 hps
        (by rw [hview]; rfl) (by omega)]
      dsimp only [except_ok_bind, except_pure]

theorem parseIfdEntries_encodeIfdAt (le : Bool) (P0 : DataView) :
    ∀ (rest done : List LogEntry) (acc : IfdMap),
      (∀ e ∈ done ++ rest, wfEntry e) →
      P0.length + 2 + 12 * (done ++ rest).length + ifdDataLen (done ++ rest)
          < 4294967296 →
      parseIfdEntries (P0 ++ encodeIfdAt le P0.length (done ++ rest)) P0.length 0 le
          done.length acc rest.length
        = .ok (rest.foldl (fun m e => ifdInsert m (logicalEntry e)) acc) := by
  intro rest
  induction rest with
  | nil => intro done acc _ _; rfl
  | cons e rest ih =>
    intro done acc hwf htot
    have hwfe : wfEntry e := hwf e (by simp)
    obtain ⟨t, v⟩ := e
    have hdl : ifdDataLen (done ++ (t, v) :: rest)
        = ifdDataLen done + (LogVal.dataLen v + ifdDataLen rest) := by
      rw [ifdDataLen_append, ifdDataLen_cons]
    obtain ⟨P, MID, hview, hP⟩ :
        ∃ P MID, P0 ++ encodeIfdAt le P0.length (done ++ (t, v) :: rest)
            = P ++ (encodeEntry le
                (P0.length + 2 + 12 * (done ++ (t, v) :: rest).length + ifdDataLen done)
                (t, v) ++ MID)
          ∧ P.length = P0.length + 2 + done.length * 12 := by
      refine ⟨P0 ++ encode16 le (done ++ (t, v) :: rest).length
          ++ (encodeEntriesAux le
            (P0.length + 2 + 12 * (done ++ (t, v) :: rest).length) done).1,
        (encodeEntriesAux le
            (P0.length + 2 + 12 * (done ++ (t, v) :: rest).length + ifdDataLen done
              + (t, v).2.dataLen) rest).1
          ++ ((encodeEntriesAux le
              (P0.length + 2 + 12 * (done ++ (t, v) :: rest).length) done).2
            ++ ((t, v).2.dataBytes le
              ++ (encodeEntriesAux le
                (P0.length + 2 + 12 * (done ++ (t, v) :: rest).length + ifdDataLen done
                  + (t, v).2.dataLen) rest).2)), ?_, ?_⟩
      · rw [encodeIfdAt,
          encodeEntriesAux_append le done ((t, v) :: rest)
            (P0.length + 2 + 12 * (done ++ (t, v) :: rest).length),
          encodeEntriesAux_cons]
        simp [List.append_assoc]
      · simp only [List.length_append, encode16_length,
          encodeEntriesAux_fst_length]
        ring
    obtain ⟨Q, RR, hviewQ, hQ⟩ :
        ∃ Q RR, P0 ++ encodeIfdAt le P0.length (done ++ (t, v) :: rest)
            = Q ++ ((t, v).2.dataBytes le ++ RR)
          ∧ Q.length = P0.length + 2 + 12 * (done ++ (t, v) :: rest).length
              + ifdDataLen done := by
      refine ⟨P0 ++ encode16 le (done ++ (t, v) :: rest).length
          ++ ((encodeEntriesAux le
              (P0.length + 2 + 12 * (done ++ (t, v) :: rest).length) done).1
            ++ (encodeEntry le
                (P0.length + 2 + 12 * (done ++ (t, v) :: rest).length + ifdDataLen done)
                (t, v)
              ++ ((encodeEntriesAux le
                  (P0.length + 2 + 12 * (done ++ (t, v) :: rest).length + ifdDataLen done
                    + (t, v).2.dataLen) rest).1
                ++ (encodeEntriesAux le
                  (P0.length + 2 + 12 * (done ++ (t, v) :: rest).length) done).2))),
        (encodeEntriesAux le
            (P0.length + 2 + 12 * (done ++ (t, v) :: rest).length + ifdDataLen done
              + (t, v).2.dataLen) rest).2, ?_, ?_⟩
      · rw [encodeIfdAt,
          encodeEntriesAux_append le done ((t, v) :: rest)
            (P0.length + 2 + 12 * (done ++ (t, v) :: rest).length),
          encodeEntriesAux_cons]
        simp [List.append_assoc]
      · simp only [List.length_append, encode16_length,
          encodeEntriesAux_fst_length, encodeEntriesAux_snd_length,
          encodeEntry_length, List.length_cons]
        ring
    obtain ⟨off0, hOFF⟩ :
        ∃ o, P0.length + 2 + 12 * (done ++ (t, v) :: rest).length + ifdDataLen done
          = o := ⟨_, rfl⟩
    rw [hOFF] at hview hQ
    have hOFF0lt : off0 < 4294967296 := by
      rw [← hOFF]
      omega
    have henc : ∀ (off2 : Nat) (M : DataView), encodeEntry le off2 (t, v) ++ M
        = encode16 le t ++ (encode16 le v.typeCode ++ (encode32 le v.countOf
          ++ (LogVal.fieldBytes le off2 v ++ M))) := by
      intro off2 M
      simp [encodeEntry, List.append_assoc]
    have h_tag : getUint16 (P0 ++ encodeIfdAt le P0.length (done ++ (t, v) :: rest))
        (P0.length + 2 + done.length * 12) le = .ok t := by
      rw [← hP, hview, henc]
      exact getUint16_encode le t P _ hwfe.1
    have hl2 : (P ++ encode16 le t).length = P.length + 2 := by
      simp [encode16_length]
    have hl4 : ((P ++ encode16 le t) ++ encode16 le v.typeCode).length
        = P.length + 4 := by
      simp [encode16_length]
    have hl8 : (((P ++ encode16 le t) ++ encode16 le v.typeCode)
        ++ encode32 le v.countOf).length = P.length + 8 := by
      simp [encode16_length, encode32_length]
    have h_type : getUint16 (P0 ++ encodeIfdAt le P0.length (done ++ (t, v) :: rest))
        (P0.length + 2 + done.length * 12 + 2) le = .ok v.typeCode := by
      rw [show P0.length + 2 + done.length * 12 + 2 = (P ++ encode16 le t).length from by
          rw [hl2, hP],
        hview, henc,
        show P ++ (encode16 le t ++ (encode16 le v.typeCode ++ (encode32 le v.countOf
            ++ (LogVal.fieldBytes le off0 v ++ MID))))
          = (P ++ encode16 le t) ++ (encode16 le v.typeCode ++ (encode32 le v.countOf
            ++ (LogVal.fieldBytes le off0 v ++ MID))) from by simp [List.append_assoc]]
      exact getUint16_encode le v.typeCode _ _ (typeCode_lt v)
    have h_count : getUint32 (P0 ++ encodeIfdAt le P0.length (done ++ (t, v) :: rest))
        (P0.length + 2 + done.length * 12 + 4) le = .ok v.countOf := by
      rw [show P0.length + 2 + done.length * 12 + 4
          = ((P ++ encode16 le t) ++ encode16 le v.typeCode).length from by
          rw [hl4, hP],
        hview, henc,
        show P ++ (encode16 le t ++ (encode16 le v.typeCode ++ (encode32 le v.countOf
            ++ (LogVal.fieldBytes le off0 v ++ MID))))
          = ((P ++ encode16 le t) ++ encode16 le v.typeCode) ++ (encode32 le v.countOf
            ++ (LogVal.fieldBytes le off0 v ++ MID)) from by simp [List.append_assoc]]
      exact getUint32_encode le v.countOf _ _ (countOf_lt v hwfe.2)
    have hshape8 : P0 ++ encodeIfdAt le P0.length (done ++ (t, v) :: rest)
        = (((P ++ encode16 le t) ++ encode16 le v.typeCode) ++ encode32 le v.countOf)
          ++ (LogVal.fieldBytes le off0 v ++ MID) := by
      rw [hview, henc]
      simp [List.append_assoc]
    have hfield : ∃ w, getUint32 (P0 ++ encodeIfdAt le P0.length (done ++ (t, v) :: rest))
          (P0.length + 2 + done.length * 12 + 8) le = .ok w
        ∧ readTagValue (P0 ++ encodeIfdAt le P0.length (done ++ (t, v) :: rest))
            v.typeCode v.countOf w 0 (P0.length + 2 + done.length * 12 + 8) le
          = .ok v.decoded := by
      cases hinl : v.isInline with
      | true =>
        have hfb : LogVal.fieldBytes le off0 v = v.inlineBytes le := by
          simp [LogVal.fieldBytes, hinl]
        obtain ⟨w, hw2⟩ := getUint32_ok_of_len
          (((P ++ encode16 le t) ++ encode16 le v.typeCode) ++ encode32 le v.countOf)
          (LogVal.fieldBytes le off0 v) MID le (fieldBytes_length le off0 v)
        refine ⟨w, ?_, ?_⟩
        · rw [show P0.length + 2 + done.length * 12 + 8
              = (((P ++ encode16 le t) ++ encode16 le v.typeCode)
                ++ encode32 le v.countOf).length from by rw [hl8, hP], hshape8]
          exact hw2
        · refine readTagValue_logical le _ v w (P0.length + 2 + done.length * 12 + 8)
            hwfe.2 ?_ ?_
          · intro _
            refine ⟨((P ++ encode16 le t) ++ encode16 le v.typeCode)
              ++ encode32 le v.countOf, MID, ?_, ?_⟩
            · rw [hshape8, hfb]
            · rw [hl8, hP]
          · intro hc
            rw [hinl] at hc
            cases hc
      | false =>
        have hfb : LogVal.fieldBytes le off0 v = encode32 le off0 := by
          simp [LogVal.fieldBytes, hinl]
        refine ⟨off0, ?_, ?_⟩
        · rw [show P0.length + 2 + done.length * 12 + 8
              = (((P ++ encode16 le t) ++ encode16 le v.typeCode)
                ++ encode32 le v.countOf).length from by rw [hl8, hP], hshape8, hfb]
          exact getUint32_encode le off0 _ MID hOFF0lt
        · refine readTagValue_logical le _ v off0 (P0.length + 2 + done.length * 12 + 8)
            hwfe.2 ?_ ?_
          · intro hc
            rw [hinl] at hc
            cases hc
          · intro _
            refine ⟨Q, RR, ?_, hQ⟩
            rw [hviewQ, show (t, v).2.dataBytes le = v.rawBytes le from by
              simp [LogVal.dataBytes, hinl]]
    obtain ⟨w, h_vo, h_rtv⟩ := hfield
    simp only [List.length_cons]
    unfold parseIfdEntries
    dsimp only
    rw [h_tag]
    dsimp only [except_ok_bind]
    rw [h_type]
    dsimp only [except_ok_bind]
    rw [h_count]
    dsimp only [except_ok_bind]
    rw [h_vo]
    dsimp only [except_ok_bind]
    rw [h_rtv]
    dsimp only
    have hrec := ih (done ++ [(t, v)])
      (ifdInsert acc ⟨t, v.typeCode, v.countOf, v.decoded⟩)
      (by
        intro x hx
        apply hwf
        simp only [List.append_assoc, List.cons_append, List.nil_append] at hx ⊢
        exact hx)
      (by
        simp only [List.append_assoc, List.cons_append, List.nil_append]
        exact htot)
    simp only [List.append_assoc, List.cons_append, List.nil_append,
      List.length_append, List.length_cons, List.length_nil] at hrec
    simp only [List.foldl_cons]
    exact hrec

/-- Decoding an encoded IFD placed behind an arbitrary prefix recovers
exactly the logical entries. -/
theorem parseIfd_encodeIfdAt (le : Bool) (P0 : DataView) (es : List LogEntry)
    (hwf : ∀ e ∈ es, wfEntry e) (hlen : es.length < 65536)
    (htot : P0.length + 2 + 12 * es.length + ifdDataLen es < 4294967296) :
    parseIfd (P0 ++ encodeIfdAt le P0.length es) P0.length 0 le
      = .ok (logicalIfd es) := by
  unfold parseIfd
  have hc : getUint16 (P0 ++ encodeIfdAt le P0.length es) P0.length le
      = .ok es.length := by
    rw [show P0 ++ encodeIfdAt le P0.length es
        = P0 ++ (encode16 le es.length
          ++ ((encodeEntriesAux le (P0.length + 2 + 12 * es.length) es).1
            ++ (encodeEntriesAux le (P0.length + 2 + 12 * es.length) es).2))
        from rfl]
    exact getUint16_encode le es.length P0 _ hlen
  rw [hc]
  dsimp only [except_ok_bind]
  have h := parseIfdEntries_encodeIfdAt le P0 es [] []
    (by simpa using hwf) (by simpa using htot)
  simpa [logicalIfd] using h

/-- The 8-byte TIFF header: order marker (`"II"` little-endian, `"MM"`
big-endian), the magic 42, and the offset 8 of IFD0. -/
def tiffHeader (le : Bool) : DataView :=
  (if le then [0x49, 0x49] else [0x4D, 0x4D]) ++ encode16 le 42 ++ encode32 le 8

/-- A whole TIFF block: header, then IFD0 (entries and data area) at
offset 8 from the TIFF base. -/
def encodeTiff (le : Bool) (es : List LogEntry) : DataView :=
  tiffHeader le ++ encodeIfdAt le 8 es

theorem getUint16_cons2_be (a b : Nat) (l : DataView) :
    getUint16 (a :: b :: l) 0 false = .ok (256 * a + b) := by
  unfold getUint16
  rw [getUint8_zero, show (0 : Nat) + 1 = 1 from rfl, getUint8_one]
  simp only [except_ok_bind]
  rfl

theorem mem_foldl_ifdInsert :
    ∀ (es : List LogEntry) (acc : IfdMap) (x : IfdEntry),
      x ∈ es.foldl (fun m e => ifdInsert m (logicalEntry e)) acc →
      x ∈ acc ∨ ∃ e ∈ es, x = logicalEntry e := by
  intro es
  induction es with
  | nil => intro acc x hx; exact Or.inl hx
  | cons e es ih =>
    intro acc x hx
    simp only [List.foldl_cons] at hx
    rcases ih (ifdInsert acc (logicalEntry e)) x hx with h | ⟨e2, he2, hx2⟩
    · rcases List.mem_append.mp h with h2 | h2
      · exact Or.inl (List.mem_filter.mp h2).1
      · simp only [List.mem_singleton] at h2
        exact Or.inr ⟨e, by simp, h2⟩
    · exact Or.inr ⟨e2, by simp [he2], hx2⟩

theorem ifdFind_logicalIfd_none (es : List LogEntry) (k : Nat)
    (h : ∀ e ∈ es, e.1 ≠ k) : ifdFind (logicalIfd es) k = none := by
  unfold ifdFind
  rw [List.find?_eq_none]
  intro x hx
  rcases mem_foldl_ifdInsert es [] x (by simpa [logicalIfd] using hx) with h2 | ⟨e, he, hx2⟩
  · simp at h2
  · simp only [hx2, logicalEntry]
    simpa using h e he

theorem processExifData_mapsOnly (a b : ExifData) (h1 : a.exifFound = b.exifFound)
    (h2 : a.ifd0 = b.ifd0) (h3 : a.exif = b.exif) (h4 : a.gps = b.gps) :
    processExifData a = processExifData b := by
  cases a
  cases b
  simp only at h1 h2 h3 h4
  subst h1
  subst h2
  subst h3
  subst h4
  rfl

/-- A whole encoded TIFF block parses to completion: the order marker
selects the byte order, the magic check passes, and IFD0 decodes to the
logical entries (no sub-IFD pointer tags present). -/
theorem parseTiffData_encodeTiff (le : Bool) (es : List LogEntry)
    (hwf : ∀ e ∈ es, wfEntry e) (hlen : es.length < 65536)
    (htot : 10 + 12 * es.length + ifdDataLen es < 4294967296)
    (hptr : ∀ e ∈ es, e.1 ≠ 0x8769 ∧ e.1 ≠ 0x8825) (ed : ExifData) :
    parseTiffData (encodeTiff le es) 0 ed
      = .ok { ed with byteOrder := some le, ifd0 := some (logicalIfd es) } := by
  have hhl : (tiffHeader le).length = 8 := by cases le <;> rfl
  have hmagic : getUint16 (encodeTiff le es) 2 le = .ok 42 := by
    rw [show encodeTiff le es = (if le then [0x49, 0x49] else [0x4D, 0x4D])
        ++ (encode16 le 42 ++ (encode32 le 8 ++ encodeIfdAt le 8 es)) from by
      simp [encodeTiff, tiffHeader, List.append_assoc],
      show (2 : Nat)
        = ((if le then [0x49, 0x49] else [0x4D, 0x4D]) : DataView).length from by
      cases le <;> rfl]
    exact getUint16_encode le 42 _ _ (by norm_num)
  have hoff : getUint32 (encodeTiff le es) 4 le = .ok 8 := by
    rw [show encodeTiff le es = ((if le then [0x49, 0x49] else [0x4D, 0x4D])
          ++ encode16 le 42)
        ++ (encode32 le 8 ++ encodeIfdAt le 8 es) from by
      simp [encodeTiff, tiffHeader, List.append_assoc],
      show (4 : Nat) = (((if le then [0x49, 0x49] else [0x4D, 0x4D]) : DataView)
        ++ encode16 le 42).length from by cases le <;> rfl]
    exact getUint32_encode le 8 _ _ (by norm_num)
  have hifd : parseIfd (encodeTiff le es) 8 0 le = .ok (logicalIfd es) := by
    have h := parseIfd_encodeIfdAt le (tiffHeader le) es hwf hlen
      (by rw [hhl]; omega)
    rw [hhl] at h
    exact h
  have hf69 : ifdFind (logicalIfd es) 0x8769 = none :=
    ifdFind_logicalIfd_none es _ (fun e he => (hptr e he).1)
  have hf25 : ifdFind (logicalIfd es) 0x8825 = none :=
    ifdFind_logicalIfd_none es _ (fun e he => (hptr e he).2)
  cases le with
  | true =>
    have hbo : getUint16 (encodeTiff true es) 0 false = .ok 0x4949 := by
      rw [show encodeTiff true es = 0x49 :: 0x49 :: (encode16 true 42
          ++ (encode32 true 8 ++ encodeIfdAt true 8 es)) from by
        simp [encodeTiff, tiffHeader, List.append_assoc],
        getUint16_cons2_be]
    unfold parseTiffData
    rw [hbo]
    simp only [pure_bind, except_ok_bind, except_error_bind, except_throw,
      Nat.zero_add, decide_True, decide_False, hmagic, hoff, hifd, hf69, hf25]
    rfl
  | false =>
    have hbo : getUint16 (encodeTiff false es) 0 false = .ok 0x4D4D := by
      rw [show encodeTiff false es = 0x4D :: 0x4D :: (encode16 false 42
          ++ (encode32 false 8 ++ encodeIfdAt false 8 es)) from by
        simp [encodeTiff, tiffHeader, List.append_assoc],
        getUint16_cons2_be]
    unfold parseTiffData
    rw [hbo]
    simp only [pure_bind, except_ok_bind, except_error_bind, except_throw,
      Nat.zero_add, decide_True, decide_False,
      show (decide ((0x4D4D : Nat) = 0x4949)) = false from by decide,
      hmagic, hoff, hifd, hf69, hf25]
    rfl

/-- C6: identical logical tag values encoded little-endian (`"II"`) and
big-endian (`"MM"`) decode to the same extracted metadata.  The logical
language covers scalars of every supported type, ASCII strings of any
length, and short / rational / signed-rational arrays, stored inline or
out of line in a data area exactly as `readTagValue` expects.  (i) At the
directory level the IFD walker produces the same result from the
little-endian and the big-endian encoding of any well-formed entry list.
(ii) At the TIFF level: the `"II"` and `"MM"` buffers for the same
entries both parse to completion through the byte-order marker, magic
check and IFD0 walk, decode to the same `ifd0` map, and yield the same
extracted metadata through `processExifData` (only the recorded byte
order differs).  (iii) The formatter depends only on the decoded maps
(never on the recorded byte order), so equal maps give equal extracted
metadata. -/
theorem byte_order_equivalence_C6 :
    (∀ es : List LogEntry, (∀ e ∈ es, wfEntry e) → es.length < 65536 →
        2 + 12 * es.length + ifdDataLen es < 4294967296 →
      parseIfd (encodeIfdAt true 0 es) 0 0 true
        = parseIfd (encodeIfdAt false 0 es) 0 0 false)
    ∧ (∀ es : List LogEntry, (∀ e ∈ es, wfEntry e) → es.length < 65536 →
        10 + 12 * es.length + ifdDataLen es < 4294967296 →
        (∀ e ∈ es, e.1 ≠ 0x8769 ∧ e.1 ≠ 0x8825) →
        ∀ ed : ExifData, ∃ edL edB,
          parseTiffData (encodeTiff true es) 0 ed = .ok edL
          ∧ parseTiffData (encodeTiff false es) 0 ed = .ok edB
          ∧ edL.ifd0 = some (logicalIfd es)
          ∧ edB.ifd0 = some (logicalIfd es)
          ∧ processExifData { edL with exifFound := true }
              = processExifData { edB with exifFound := true })
    ∧ (∀ a b : ExifData, a.exifFound = b.exifFound → a.ifd0 = b.ifd0 →
        a.exif = b.exif → a.gps = b.gps → processExifData a = processExifData b) := by
  refine ⟨?_, ?_, ?_⟩
  · intro es hwf hlen htot
    have h1 := parseIfd_encodeIfdAt true [] es hwf hlen (by simpa using htot)
    have h2 := parseIfd_encodeIfdAt false [] es hwf hlen (by simpa using htot)
    simp only [List.nil_append, List.length_nil] at h1 h2
    rw [h1, h2]
  · intro es hwf hlen htot hptr ed
    refine ⟨_, _, parseTiffData_encodeTiff true es hwf hlen htot hptr ed,
      parseTiffData_encodeTiff false es hwf hlen htot hptr ed, rfl, rfl, ?_⟩
    exact processExifData_mapsOnly _ _ rfl rfl rfl rfl
  · intro a b h1 h2 h3 h4
    exact processExifData_mapsOnly a b h1 h2 h3 h4

/-- A logical IFD exercising every storage shape: out-of-line and inline
ASCII, an inline short scalar, a GPS-style rational triple, a count-1
rational, a count-1 signed rational, and an out-of-line short array. -/
def esW : List LogEntry :=
  [(0x010F, .asciiV "CanonCanonCanon"),
   (0x0131, .asciiV "Ab"),
   (0x0112, .shortV 1),
   (0x0002, .ratV [(40, 1), (26, 1), (46, 1)]),
   (0x011A, .ratV [(72, 1)]),
   (0x9201, .sratV [(-5, 2)]),
   (0x0102, .shortsV [8, 8, 8])]

theorem byte_order_equivalence_C6_witness :
    (parseIfd (encodeIfdAt true 0 esW) 0 0 true
      = parseIfd (encodeIfdAt false 0 esW) 0 0 false)
    ∧ ∃ edL edB,
        parseTiffData (encodeTiff true esW) 0 {} = .ok edL
        ∧ parseTiffData (encodeTiff false esW) 0 {} = .ok edB
        ∧ edL.ifd0 = some (logicalIfd esW)
        ∧ edB.ifd0 = some (logicalIfd esW)
        ∧ processExifData { edL with exifFound := true }
            = processExifData { edB with exifFound := true } :=
  ⟨byte_order_equivalence_C6.1 esW
      (by
        intro e he
        simp only [esW, List.mem_cons, List.not_mem_nil, or_false] at he
        rcases he with rfl | rfl | rfl | rfl | rfl | rfl | rfl
        · exact ⟨by norm_num, by decide, by decide⟩
        · exact ⟨by norm_num, by decide, by decide⟩
        · exact ⟨by norm_num, show (1 : Nat) < 65536 from by norm_num⟩
        · exact ⟨by norm_num, by decide, by decide, by decide⟩
        · exact ⟨by norm_num, by decide, by decide, by decide⟩
        · exact ⟨by norm_num, by decide, by decide, by decide⟩
        · exact ⟨by norm_num, by decide, by decide, by decide⟩)
      (by decide) (by decide),
   byte_order_equivalence_C6.2.1 esW
      (by
        intro e he
        simp only [esW, List.mem_cons, List.not_mem_nil, or_false] at he
        rcases he with rfl | rfl | rfl | rfl | rfl | rfl | rfl
        · exact ⟨by norm_num, by decide, by decide⟩
        · exact ⟨by norm_num, by decide, by decide⟩
        · exact ⟨by norm_num, show (1 : Nat) < 65536 from by norm_num⟩
        · exact ⟨by norm_num, by decide, by decide, by decide⟩
        · exact ⟨by norm_num, by decide, by decide, by decide⟩
        · exact ⟨by norm_num, by decide, by decide, by decide⟩
        · exact ⟨by norm_num, by decide, by decide, by decide⟩)
      (by decide) (by decide) (by decide) {}⟩
